import Mathlib

/-!
Verification of the block-sparse index precomputation algorithm
(`sparsify_mask` in `docs/pallas/tpu/sparse.ipynb`).

The function takes a dense 2-D mask (a JAX array) and a block shape
`(bm, bn)`, and produces
  * `block_mask`    : per-tile active flag grid,
  * `prefetch_mask` : per-tile index of the next non-zero block's content
                      in the deduplicated content table,
  * `prefetch_i`, `prefetch_j` : per-tile coordinates of the next active tile,
  * `mask_data`     : the deduplicated non-zero block contents, stacked.

Modelling decisions (each matching the jax/numpy semantics the source
relies on):

  * A 2-D array is a `List (List Int)`; element values of a boolean array
    are 0/1.  Row count `M` is the list length; column count `N` is the
    length of the first row (`mask.shape` of a rectangular array).
  * Python slicing `mask[a:b, c:d]` clips to the array bounds; this is
    exactly `(drop a).take (b - a)` on lists, so `extractBlock` below uses
    `drop`/`take`.
  * `jnp.zeros((M // bm, N // bn), dtype=mask.dtype)` and `zeros_like`
    give the four grids the *mask's* dtype; `.at[i, j].set(v)` casts the
    stored value to that dtype, and (under JAX's default
    `promise_in_bounds` mode) *drops* the update when the index is out of
    bounds.  `DType.cast` models the value cast, and `gridSet` uses
    `List.set`, which is a no-op out of bounds.  The two dtypes that occur
    (the docstring requires a boolean mask; the notebook's own call site
    passes `jnp.int32`) are modelled by `DType.bool` and `DType.int32`;
    the int32 cast is the identity, which is exact for all values the
    algorithm stores as long as the tile counts stay below 2^31.
  * `mask_types_finder.index(str(mask_block))` looks up the *first*
    position of the block's textual key, raising `ValueError` when absent.
    The key is numpy's rendering: with the default print options it shows
    every element when the array has at most `threshold = 1000` elements,
    and above that it elides each axis longer than `2 * edgeitems = 6`
    down to its first and last three positions, computing the format
    widths from the displayed elements only.  Two same-shaped integer
    blocks therefore render to the same string iff they agree on the
    displayed elements.  Since the algorithm uses the key only in
    equality searches, `displayKey` models it by returning exactly the
    displayed elements, and `idxOf?` searches `mask_data` by
    `displayKey`-equality (the finder holds the keys of `mask_data`'s
    entries, appended in lockstep, so searching the finder is searching
    `mask_data` by key).  In particular distinct blocks with more than
    1000 elements can share a key and be wrongly merged — the behaviour
    the source really has.
  * `jnp.stack(mask_data)` raises when the list is empty, and when the
    entries' shapes differ; otherwise (stacking along a new leading axis)
    it preserves the list of blocks in order.  `stack` returns `Except`.
-/

namespace BlockSparse

/-- A 2-D array of scalars (a block of the mask, or the whole mask). -/
abbrev Block := List (List Int)

/-- A tile-grid-shaped output array. -/
abbrev Grid := List (List Int)

/-- The dtypes relevant to `sparsify_mask`: the docstring requires a boolean
mask, the notebook call site uses an int32 mask.  The four output grids are
allocated with the mask's dtype. -/
inductive DType where
  | bool : DType
  | int32 : DType
deriving DecidableEq, Repr

/-- Storing a value into an array of this dtype casts it: a boolean array
keeps only zero/non-zero (False/True); an int32 array keeps the value
(wraparound cannot occur for the values this algorithm stores). -/
def DType.cast : DType → Int → Int
  | .bool, v => if v = 0 then 0 else 1
  | .int32, v => v

/-- `mask.shape[0]`. -/
def rowsOf (mask : Block) : Nat := mask.length

/-- `mask.shape[1]` of a rectangular array. -/
def colsOf (mask : Block) : Nat := (mask.headD []).length

/-- Read entry `(i, j)` of a grid (0 outside the grid). -/
def gridEntry (g : Grid) (i j : Nat) : Int := (g.getD i []).getD j 0

/-- `g.at[i, j].set(v)`: functional update; out-of-bounds writes are
dropped, as under JAX's default `promise_in_bounds` mode. -/
def gridSet (g : Grid) (i j : Nat) (v : Int) : Grid :=
  g.set i ((g.getD i []).set j v)

/-- `jnp.zeros((r, c))` (as integers; False = 0 for a boolean dtype). -/
def zerosGrid (r c : Nat) : Grid :=
  List.replicate r (List.replicate c 0)

/-- `mask[i*bm : (i+1)*bm, j*bn : (j+1)*bn]` with Python slice clipping. -/
def extractBlock (mask : Block) (bm bn i j : Nat) : Block :=
  ((mask.drop (i * bm)).take bm).map (fun r => (r.drop (j * bn)).take bn)

/-- `jnp.any(block)`: true iff some element is non-zero. -/
def blockNonzero (b : Block) : Bool :=
  b.any (fun r => r.any (fun v => v != 0))

/-- Total number of elements of a block (`arr.size` for a rectangular
array). -/
def blockElems (b : Block) : Nat := (b.map List.length).sum

/-- The entries of one axis that numpy displays when an array is
summarized: all of them when the axis has length at most
`2 * edgeitems = 6`, otherwise the first three and the last three. -/
def edgeAxis {α : Type} (l : List α) : List α :=
  if l.length ≤ 6 then l else l.take 3 ++ l.drop (l.length - 3)

/-- The dedup key of the source, up to string equality.  `str(mask_block)`
renders every element when the block has at most 1000 elements (numpy's
`threshold`), and only the edge elements of each long axis when it is
larger, with format widths computed from the displayed elements; so for
same-shaped integer blocks `str(a) = str(b)` iff `a` and `b` agree on the
displayed elements.  `displayKey` returns exactly those elements, making
`displayKey`-equality the model of `str`-equality — the only way the
source uses the key. -/
def displayKey (b : Block) : Block :=
  if blockElems b ≤ 1000 then b else (edgeAxis b).map edgeAxis

/-- First index of an entry whose display key equals `b`'s, `none` when
absent: models `mask_types_finder.index(str(mask_block))` together with
its `ValueError` branch.  The finder holds the keys of `mask_data`'s
entries (the two lists are appended together and never otherwise
modified), so searching the finder for `str(b)` is searching `mask_data`
for a `displayKey`-equal entry. -/
def idxOf? (b : Block) : List Block → Option Nat
  | [] => none
  | x :: xs =>
      if displayKey x = displayKey b then some 0
      else (idxOf? b xs).map Nat.succ

/-- The loop state of `sparsify_mask`: the four grids being filled, the
deduplication table (`mask_types_finder` and `mask_data` evolve in
lockstep, so one list of blocks represents both), and the carried
`next_mask_type_idx` / `next_i` / `next_j` scalars. -/
structure LoopState where
  block_mask : Grid
  prefetch_mask : Grid
  prefetch_i : Grid
  prefetch_j : Grid
  mask_data : List Block
  next_mask_type_idx : Nat
  next_i : Int
  next_j : Int
deriving DecidableEq, Repr

/-- `[n-1, n-2, ..., 0]`. -/
def revBelow : Nat → List Nat
  | 0 => []
  | n + 1 => n :: revBelow n

/-- `range(n, -1, -1) = [n, n-1, ..., 0]`. -/
def revRange (n : Nat) : List Nat := n :: revBelow n

/-- The iteration sequence of the two nested loops:
`for i in range(R, -1, -1): for j in range(C, -1, -1)`. -/
def tileIndices (R C : Nat) : List (Nat × Nat) :=
  (revRange R).flatMap (fun i => (revRange C).map (fun j => (i, j)))

/-- One iteration of the inner loop body of `sparsify_mask` at `(i, j)`. -/
def stepTile (mask : Block) (dt : DType) (bm bn : Nat)
    (s : LoopState) (p : Nat × Nat) : LoopState :=
  let i := p.1
  let j := p.2
  let mask_block := extractBlock mask bm bn i j
  let is_nonzero := blockNonzero mask_block
  if is_nonzero then
    let td : Nat × List Block :=
      match idxOf? mask_block s.mask_data with
      | some t => (t, s.mask_data)
      | none => (s.mask_data.length, s.mask_data ++ [mask_block])
    { block_mask := gridSet s.block_mask i j (dt.cast 1)
      prefetch_mask := gridSet s.prefetch_mask i j (dt.cast td.1)
      prefetch_i := gridSet s.prefetch_i i j (dt.cast i)
      prefetch_j := gridSet s.prefetch_j i j (dt.cast j)
      mask_data := td.2
      next_mask_type_idx := td.1
      next_i := i
      next_j := j }
  else
    { s with
      block_mask := gridSet s.block_mask i j (dt.cast 0)
      prefetch_mask := gridSet s.prefetch_mask i j (dt.cast s.next_mask_type_idx)
      prefetch_i := gridSet s.prefetch_i i j (dt.cast s.next_i)
      prefetch_j := gridSet s.prefetch_j i j (dt.cast s.next_j) }

/-- The state before the loops: zero-initialised grids of shape
`(M // bm, N // bn)`, empty tables, `next_mask_type_idx = 0`,
`next_i = M // bm - 1`, `next_j = N // bn - 1`. -/
def initState (mask : Block) (bm bn : Nat) : LoopState :=
  let R := rowsOf mask / bm
  let C := colsOf mask / bn
  { block_mask := zerosGrid R C
    prefetch_mask := zerosGrid R C
    prefetch_i := zerosGrid R C
    prefetch_j := zerosGrid R C
    mask_data := []
    next_mask_type_idx := 0
    next_i := (R : Int) - 1
    next_j := (C : Int) - 1 }

/-- The two nested loops of `sparsify_mask`, run to completion. -/
def runLoop (mask : Block) (dt : DType) (bm bn : Nat) : LoopState :=
  (tileIndices (rowsOf mask / bm) (colsOf mask / bn)).foldl
    (stepTile mask dt bm bn) (initState mask bm bn)

/-- The shape of a 2-D array, row by row (rectangular arrays have all
entries equal). -/
def shapeOf (b : Block) : List Nat := b.map List.length

/-- Error text of `jnp.stack` on an empty sequence. -/
def stackErrEmpty : String := "need at least one array to stack"

/-- Error text of `jnp.stack` on arrays of differing shapes. -/
def stackErrShape : String := "all input arrays must have the same shape"

/-- `jnp.stack(blocks)`: fails on an empty list and on mismatched shapes;
otherwise stacks along a new leading axis, i.e. keeps the ordered list. -/
def stack (l : List Block) : Except String (List Block) :=
  match l with
  | [] => .error stackErrEmpty
  | b :: rest =>
      if rest.all (fun x => shapeOf x = shapeOf b) then .ok (b :: rest)
      else .error stackErrShape

/-- The five outputs of a successful `sparsify_mask` call. -/
structure SparsifyResult where
  block_mask : Grid
  prefetch_mask : Grid
  prefetch_i : Grid
  prefetch_j : Grid
  mask_data : List Block
deriving DecidableEq, Repr

/-- `sparsify_mask(mask, block_shape)`: run the nested loops, then return
the four grids together with `jnp.stack(mask_data)`.  `dt` is the dtype of
`mask` (which the four grids inherit). -/
def sparsify_mask (mask : Block) (dt : DType) (block_shape : Nat × Nat) :
    Except String SparsifyResult :=
  let s := runLoop mask dt block_shape.1 block_shape.2
  match stack s.mask_data with
  | .error e => .error e
  | .ok d =>
      .ok { block_mask := s.block_mask
            prefetch_mask := s.prefetch_mask
            prefetch_i := s.prefetch_i
            prefetch_j := s.prefetch_j
            mask_data := d }

/-- Every row has the width reported by `colsOf`: the list really is a 2-D
array of shape `(rowsOf mask, colsOf mask)`. -/
def Rectangular (mask : Block) : Prop :=
  ∀ r ∈ mask, r.length = colsOf mask

/-- Well-formed input per the spec's preconditions: rectangular mask,
positive block dimensions, mask dimensions divisible by the block shape. -/
def WellFormed (mask : Block) (bm bn : Nat) : Prop :=
  Rectangular mask ∧ 0 < bm ∧ 0 < bn ∧
    rowsOf mask % bm = 0 ∧ colsOf mask % bn = 0

/-- The tile at `(i, j)` is active: some element of its content block is
non-zero. -/
def tileActive (mask : Block) (bm bn i j : Nat) : Bool :=
  blockNonzero (extractBlock mask bm bn i j)

instance (mask : Block) : Decidable (Rectangular mask) := by
  unfold Rectangular
  infer_instance

instance (mask : Block) (bm bn : Nat) : Decidable (WellFormed mask bm bn) := by
  unfold WellFormed
  infer_instance

/-- `p` comes strictly before `q` in the forward (ascending row-major)
tile order; equivalently `q` is visited strictly before `p` during the
reverse scan of `sparsify_mask`. -/
def scanLt (p q : Nat × Nat) : Prop :=
  p.1 < q.1 ∨ (p.1 = q.1 ∧ p.2 < q.2)

instance (p q : Nat × Nat) : Decidable (scanLt p q) := by
  unfold scanLt; infer_instance

/-- A grid has `R` rows, each of width `C`. -/
def GridShaped (R C : Nat) (g : Grid) : Prop :=
  g.length = R ∧ ∀ r ∈ g, r.length = C

/-! ### Basic grid lemmas -/

theorem scanLt_asymm {p q : Nat × Nat} (h : scanLt p q) : ¬ scanLt q p := by
  rcases h with h | ⟨h1, h2⟩ <;> rintro (h' | ⟨h'1, h'2⟩) <;> omega

theorem scanLt_ne {p q : Nat × Nat} (h : scanLt p q) : p ≠ q := by
  rintro rfl
  rcases h with h | ⟨h1, h2⟩ <;> omega

theorem zerosGrid_shaped (R C : Nat) : GridShaped R C (zerosGrid R C) := by
  constructor
  · simp [zerosGrid]
  · intro r hr
    rw [List.eq_of_mem_replicate hr]
    simp

theorem gridEntry_def (g : Grid) (i j : Nat) :
    gridEntry g i j = ((g[i]?.getD [])[j]?).getD 0 := by
  simp [gridEntry]

theorem getRow_mem {g : Grid} {i : Nat} (h : i < g.length) :
    g[i]?.getD [] ∈ g := by
  rw [List.getElem?_eq_getElem h]
  exact List.getElem_mem h

theorem gridEntry_zeros (R C i j : Nat) : gridEntry (zerosGrid R C) i j = 0 := by
  rw [gridEntry_def]
  unfold zerosGrid
  rcases Nat.lt_or_ge i R with hi | hi
  · rcases Nat.lt_or_ge j C with hj | hj
    · simp [List.getElem?_replicate, hi, hj]
    · simp [List.getElem?_replicate, hi, List.getElem?_eq_none,
        Nat.not_lt.mpr hj]
  · simp [List.getElem?_replicate, Nat.not_lt.mpr hi]

theorem set_getElem?_self {α : Type} {l : List α} {i : Nat} (d : α) :
    l.set i (l[i]?.getD d) = l := by
  rcases Nat.lt_or_ge i l.length with h | h
  · apply List.ext_getElem?
    intro k
    rw [List.getElem?_set]
    by_cases hik : i = k
    · subst hik
      simp [List.getElem?_eq_getElem h, h]
    · simp [hik]
  · exact List.set_eq_of_length_le h

theorem gridSet_shaped {R C : Nat} {g : Grid} (hs : GridShaped R C g)
    (i j : Nat) (v : Int) : GridShaped R C (gridSet g i j v) := by
  obtain ⟨hlen, hrow⟩ := hs
  constructor
  · simp [gridSet, hlen]
  · intro r hr
    rcases Nat.lt_or_ge i g.length with hi | hi
    · rcases List.mem_or_eq_of_mem_set hr with hmem | rfl
      · exact hrow r hmem
      · rw [List.length_set, List.getD_eq_getElem?_getD]
        exact hrow _ (getRow_mem hi)
    · unfold gridSet at hr
      rw [List.set_eq_of_length_le (by omega)] at hr
      exact hrow r hr

theorem gridSet_oob {R C : Nat} {g : Grid} (hs : GridShaped R C g)
    {i j : Nat} (h : R ≤ i ∨ C ≤ j) (v : Int) : gridSet g i j v = g := by
  obtain ⟨hlen, hrow⟩ := hs
  rcases h with h | h
  · exact List.set_eq_of_length_le (by omega)
  · rcases Nat.lt_or_ge i g.length with hi | hi
    · have hlenr : (g.getD i []).length = C := by
        rw [List.getD_eq_getElem?_getD]
        exact hrow _ (getRow_mem hi)
      unfold gridSet
      rw [List.set_eq_of_length_le (l := g.getD i []) (by omega)]
      rw [List.getD_eq_getElem?_getD]
      exact set_getElem?_self []
    · exact List.set_eq_of_length_le (by omega)

theorem gridEntry_gridSet_ne {g : Grid} {i j i' j' : Nat} (v : Int)
    (h : (i', j') ≠ (i, j)) :
    gridEntry (gridSet g i j v) i' j' = gridEntry g i' j' := by
  rw [gridEntry_def, gridEntry_def]
  unfold gridSet
  by_cases hii : i = i'
  · subst hii
    have hjj : j ≠ j' := by
      intro hc; exact h (by simp [hc])
    rw [List.getElem?_set]
    rcases Nat.lt_or_ge i g.length with hi | hi
    · simp only [if_pos rfl, hi, if_pos, Option.getD_some]
      rw [List.getElem?_set, if_neg hjj]
      rw [List.getD_eq_getElem?_getD]
    · have h2 : g[i]? = (none : Option (List Int)) := List.getElem?_eq_none hi
      simp [Nat.not_lt.mpr hi, h2]
  · rw [List.getElem?_set, if_neg hii]

theorem gridEntry_gridSet_self {R C : Nat} {g : Grid} (hs : GridShaped R C g)
    {i j : Nat} (hi : i < R) (hj : j < C) (v : Int) :
    gridEntry (gridSet g i j v) i j = v := by
  obtain ⟨hlen, hrow⟩ := hs
  have hig : i < g.length := by omega
  have hlenr : (g.getD i []).length = C := by
    rw [List.getD_eq_getElem?_getD]
    exact hrow _ (getRow_mem hig)
  rw [gridEntry_def]
  unfold gridSet
  rw [List.getElem?_set, if_pos rfl, if_pos hig, Option.getD_some,
    List.getElem?_set, if_pos rfl, if_pos (by omega), Option.getD_some]

theorem gridEntry_oob_row {m : Block} {a b : Nat} (h : rowsOf m ≤ a) :
    gridEntry m a b = 0 := by
  rw [gridEntry_def, List.getElem?_eq_none (l := m) (by exact h)]
  simp

theorem gridEntry_oob_col {m : Block} {a b : Nat} (hrect : Rectangular m)
    (h : colsOf m ≤ b) : gridEntry m a b = 0 := by
  rw [gridEntry_def]
  rcases Nat.lt_or_ge a m.length with ha | ha
  · have hw := hrect _ (getRow_mem ha)
    rw [List.getElem?_eq_none (by omega)]
    simp
  · rw [List.getElem?_eq_none (l := m) (by exact ha)]
    simp

/-! ### The traversal sequence -/

theorem mem_revBelow {n i : Nat} : i ∈ revBelow n ↔ i < n := by
  induction n with
  | zero => simp [revBelow]
  | succ n ih =>
    simp only [revBelow, List.mem_cons, ih]
    omega

theorem mem_revRange {n i : Nat} : i ∈ revRange n ↔ i ≤ n := by
  simp only [revRange, List.mem_cons, mem_revBelow]
  omega

theorem revRange_succ (n : Nat) : revRange (n + 1) = (n + 1) :: revRange n := rfl

theorem mem_tileIndices {R C : Nat} {p : Nat × Nat} :
    p ∈ tileIndices R C ↔ p.1 ≤ R ∧ p.2 ≤ C := by
  cases p with
  | mk a b =>
    simp only [tileIndices, List.mem_flatMap, List.mem_map, mem_revRange]
    constructor
    · rintro ⟨i, hi, j, hj, heq⟩
      cases heq
      exact ⟨hi, hj⟩
    · rintro ⟨ha, hb⟩
      exact ⟨a, ha, b, hb, rfl⟩

theorem revRange_split {n i : Nat} (h : i ≤ n) :
    ∃ pre, revRange n = pre ++ revRange i ∧ ∀ x ∈ pre, i < x := by
  induction n with
  | zero =>
    refine ⟨[], ?_, by simp⟩
    have : i = 0 := Nat.le_zero.mp h
    subst this
    simp
  | succ n ih =>
    rcases Nat.eq_or_lt_of_le h with heq | hlt
    · subst heq
      exact ⟨[], by simp, by simp⟩
    · obtain ⟨pre, heqpre, hmem⟩ := ih (by omega)
      refine ⟨(n + 1) :: pre, ?_, ?_⟩
      · rw [revRange_succ, heqpre]
        rfl
      · intro x hx
        rcases List.mem_cons.mp hx with rfl | hx'
        · omega
        · exact hmem x hx'

theorem tileIndices_split {R C i0 j0 : Nat} (hi : i0 ≤ R) (hj : j0 ≤ C) :
    ∃ P S, tileIndices R C = P ++ (i0, j0) :: S ∧
      (∀ p ∈ P, p.1 ≤ R ∧ p.2 ≤ C ∧ scanLt (i0, j0) p) ∧
      (∀ p ∈ S, scanLt p (i0, j0)) := by
  obtain ⟨preR, heqR, hmemR⟩ := revRange_split hi
  obtain ⟨preC, heqC, hmemC⟩ := revRange_split hj
  refine ⟨preR.flatMap (fun i => (revRange C).map (fun j => (i, j))) ++
      preC.map (fun j => (i0, j)),
    (revBelow j0).map (fun j => (i0, j)) ++
      (revBelow i0).flatMap (fun i => (revRange C).map (fun j => (i, j))),
    ?_, ?_, ?_⟩
  · unfold tileIndices
    rw [heqR, List.flatMap_append]
    have hrow : (revRange i0).flatMap (fun i => (revRange C).map (fun j => (i, j))) =
        ((revRange C).map (fun j => (i0, j))) ++
          (revBelow i0).flatMap (fun i => (revRange C).map (fun j => (i, j))) := by
      rfl
    rw [hrow, heqC, List.map_append]
    have hcol : (revRange j0).map (fun j => (i0, j)) =
        (i0, j0) :: (revBelow j0).map (fun j => (i0, j)) := rfl
    rw [hcol]
    simp [List.append_assoc]
  · intro p hp
    rcases List.mem_append.mp hp with hp | hp
    · obtain ⟨i, hi', hp'⟩ := List.mem_flatMap.mp hp
      obtain ⟨j, hj', rfl⟩ := List.mem_map.mp hp'
      have hiR : i ≤ R := by
        have : i ∈ revRange R := by
          rw [heqR]; exact List.mem_append.mpr (Or.inl hi')
        exact mem_revRange.mp this
      exact ⟨hiR, mem_revRange.mp hj', Or.inl (hmemR _ hi')⟩
    · obtain ⟨j, hj', rfl⟩ := List.mem_map.mp hp
      have hjC : j ≤ C := by
        have : j ∈ revRange C := by
          rw [heqC]; exact List.mem_append.mpr (Or.inl hj')
        exact mem_revRange.mp this
      exact ⟨hi, hjC, Or.inr ⟨rfl, hmemC _ hj'⟩⟩
  · intro p hp
    rcases List.mem_append.mp hp with hp | hp
    · obtain ⟨j, hj', rfl⟩ := List.mem_map.mp hp
      exact Or.inr ⟨rfl, mem_revBelow.mp hj'⟩
    · obtain ⟨i, hi', hp'⟩ := List.mem_flatMap.mp hp
      obtain ⟨j, hj', rfl⟩ := List.mem_map.mp hp'
      exact Or.inl (mem_revBelow.mp hi')

/-! ### Blocks and activity -/

theorem blockNonzero_pos {mask : Block} {bm bn i j : Nat}
    (h : blockNonzero (extractBlock mask bm bn i j) = true) :
    ∃ a b, a < bm ∧ b < bn ∧ gridEntry mask (i * bm + a) (j * bn + b) ≠ 0 := by
  unfold blockNonzero extractBlock at h
  rw [List.any_map, List.any_eq_true] at h
  obtain ⟨r, hr, hrany⟩ := h
  simp only [Function.comp_apply] at hrany
  rw [List.any_eq_true] at hrany
  obtain ⟨v, hv, hvne⟩ := hrany
  obtain ⟨a, ha, hra⟩ := List.getElem_of_mem hr
  obtain ⟨b, hb, hvb⟩ := List.getElem_of_mem hv
  have halen : a < bm := by
    have := List.length_take_le bm (mask.drop (i * bm))
    omega
  have hblen : b < bn := by
    have := List.length_take_le bn (r.drop (j * bn))
    omega
  refine ⟨a, b, halen, hblen, ?_⟩
  have hrow? : mask[i * bm + a]? = some r := by
    have h1 : ((mask.drop (i * bm)).take bm)[a]? = some r :=
      List.getElem?_eq_some.mpr ⟨ha, hra⟩
    rw [List.getElem?_take, if_pos halen, List.getElem?_drop] at h1
    exact h1
  have hval? : r[j * bn + b]? = some v := by
    have h1 : ((r.drop (j * bn)).take bn)[b]? = some v :=
      List.getElem?_eq_some.mpr ⟨hb, hvb⟩
    rw [List.getElem?_take, if_pos hblen, List.getElem?_drop] at h1
    exact h1
  rw [gridEntry_def, hrow?, Option.getD_some, hval?, Option.getD_some]
  simpa using hvne

theorem blockNonzero_false_of_zero {mask : Block} {bm bn i j : Nat}
    (h : ∀ r ∈ mask, ∀ v ∈ r, v = 0) :
    blockNonzero (extractBlock mask bm bn i j) = false := by
  unfold blockNonzero extractBlock
  rw [List.any_map, List.any_eq_false]
  intro r hr
  simp only [Function.comp_apply]
  rw [Bool.not_eq_true, List.any_eq_false]
  intro v hv
  have hrmask : r ∈ mask :=
    List.drop_subset _ _ (List.take_subset _ _ hr)
  have hvr : v ∈ r :=
    List.drop_subset _ _ (List.take_subset _ _ hv)
  simp [h r hrmask v hvr]

theorem tileActive_oob {mask : Block} {bm bn : Nat}
    (hwf : WellFormed mask bm bn) {i j : Nat}
    (h : rowsOf mask / bm ≤ i ∨ colsOf mask / bn ≤ j) :
    tileActive mask bm bn i j = false := by
  obtain ⟨hrect, hbm, hbn, hdm, hdn⟩ := hwf
  rcases Bool.eq_false_or_eq_true (tileActive mask bm bn i j) with ht | hf
  · exfalso
    obtain ⟨a, b, ha, hb, hne⟩ := blockNonzero_pos ht
    rcases h with h | h
    · apply hne
      apply gridEntry_oob_row
      have : (rowsOf mask / bm) * bm = rowsOf mask := Nat.div_mul_cancel
        (Nat.dvd_of_mod_eq_zero hdm)
      have hle : rowsOf mask ≤ i * bm := by
        calc rowsOf mask = (rowsOf mask / bm) * bm := this.symm
        _ ≤ i * bm := Nat.mul_le_mul_right bm h
      omega
    · apply hne
      apply gridEntry_oob_col hrect
      have : (colsOf mask / bn) * bn = colsOf mask := Nat.div_mul_cancel
        (Nat.dvd_of_mod_eq_zero hdn)
      have hle : colsOf mask ≤ j * bn := by
        calc colsOf mask = (colsOf mask / bn) * bn := this.symm
        _ ≤ j * bn := Nat.mul_le_mul_right bn h
      omega
  · exact hf

theorem tileActive_lt {mask : Block} {bm bn : Nat}
    (hwf : WellFormed mask bm bn) {i j : Nat}
    (h : tileActive mask bm bn i j = true) :
    i < rowsOf mask / bm ∧ j < colsOf mask / bn := by
  by_contra hc
  have : rowsOf mask / bm ≤ i ∨ colsOf mask / bn ≤ j := by omega
  rw [tileActive_oob hwf this] at h
  cases h

theorem tileActive_false_outside {mask : Block} {bm bn i j : Nat}
    (hz : ∀ a b, ((rowsOf mask / bm) * bm ≤ a ∨ (colsOf mask / bn) * bn ≤ b) →
      gridEntry mask a b = 0)
    (h : rowsOf mask / bm ≤ i ∨ colsOf mask / bn ≤ j) :
    tileActive mask bm bn i j = false := by
  rcases Bool.eq_false_or_eq_true (tileActive mask bm bn i j) with ht | hf
  · exfalso
    obtain ⟨a, b, _, _, hne⟩ := blockNonzero_pos ht
    apply hne
    apply hz
    rcases h with h | h
    · exact Or.inl (by calc (rowsOf mask / bm) * bm ≤ i * bm :=
        Nat.mul_le_mul_right bm h
        _ ≤ i * bm + a := Nat.le_add_right _ _)
    · exact Or.inr (by calc (colsOf mask / bn) * bn ≤ j * bn :=
        Nat.mul_le_mul_right bn h
        _ ≤ j * bn + b := Nat.le_add_right _ _)
  · exact hf

theorem zeroRegion_unbounded {mask : Block} {bm bn : Nat}
    (hrect : Rectangular mask)
    (hz : ∀ a < rowsOf mask, ∀ b < colsOf mask,
      ((rowsOf mask / bm) * bm ≤ a ∨ (colsOf mask / bn) * bn ≤ b) →
        gridEntry mask a b = 0) :
    ∀ a b, ((rowsOf mask / bm) * bm ≤ a ∨ (colsOf mask / bn) * bn ≤ b) →
      gridEntry mask a b = 0 := by
  intro a b hab
  rcases Nat.lt_or_ge a (rowsOf mask) with ha | ha
  · rcases Nat.lt_or_ge b (colsOf mask) with hb | hb
    · exact hz a ha b hb hab
    · exact gridEntry_oob_col hrect hb
  · exact gridEntry_oob_row ha

/-! ### One loop iteration -/

theorem stepTile_inactive {mask : Block} {dt : DType} {bm bn : Nat}
    {p : Nat × Nat} (s : LoopState)
    (h : tileActive mask bm bn p.1 p.2 = false) :
    stepTile mask dt bm bn s p =
      { s with
        block_mask := gridSet s.block_mask p.1 p.2 (dt.cast 0)
        prefetch_mask :=
          gridSet s.prefetch_mask p.1 p.2 (dt.cast s.next_mask_type_idx)
        prefetch_i := gridSet s.prefetch_i p.1 p.2 (dt.cast s.next_i)
        prefetch_j := gridSet s.prefetch_j p.1 p.2 (dt.cast s.next_j) } := by
  have h' : blockNonzero (extractBlock mask bm bn p.1 p.2) = false := h
  simp [stepTile, h']

theorem stepTile_active_found {mask : Block} {dt : DType} {bm bn : Nat}
    {p : Nat × Nat} (s : LoopState) (t : Nat)
    (h : tileActive mask bm bn p.1 p.2 = true)
    (hf : idxOf? (extractBlock mask bm bn p.1 p.2) s.mask_data = some t) :
    stepTile mask dt bm bn s p =
      { block_mask := gridSet s.block_mask p.1 p.2 (dt.cast 1)
        prefetch_mask := gridSet s.prefetch_mask p.1 p.2 (dt.cast t)
        prefetch_i := gridSet s.prefetch_i p.1 p.2 (dt.cast p.1)
        prefetch_j := gridSet s.prefetch_j p.1 p.2 (dt.cast p.2)
        mask_data := s.mask_data
        next_mask_type_idx := t
        next_i := p.1
        next_j := p.2 } := by
  have h' : blockNonzero (extractBlock mask bm bn p.1 p.2) = true := h
  simp [stepTile, h', hf]

theorem stepTile_active_new {mask : Block} {dt : DType} {bm bn : Nat}
    {p : Nat × Nat} (s : LoopState)
    (h : tileActive mask bm bn p.1 p.2 = true)
    (hf : idxOf? (extractBlock mask bm bn p.1 p.2) s.mask_data = none) :
    stepTile mask dt bm bn s p =
      { block_mask := gridSet s.block_mask p.1 p.2 (dt.cast 1)
        prefetch_mask :=
          gridSet s.prefetch_mask p.1 p.2 (dt.cast s.mask_data.length)
        prefetch_i := gridSet s.prefetch_i p.1 p.2 (dt.cast p.1)
        prefetch_j := gridSet s.prefetch_j p.1 p.2 (dt.cast p.2)
        mask_data := s.mask_data ++ [extractBlock mask bm bn p.1 p.2]
        next_mask_type_idx := s.mask_data.length
        next_i := p.1
        next_j := p.2 } := by
  have h' : blockNonzero (extractBlock mask bm bn p.1 p.2) = true := h
  simp [stepTile, h', hf]

/-! ### `idxOf?` -/

theorem idxOf?_eq_none_iff {b : Block} {l : List Block} :
    idxOf? b l = none ↔ ∀ x ∈ l, displayKey x ≠ displayKey b := by
  induction l with
  | nil => simp [idxOf?]
  | cons x xs ih =>
    by_cases hx : displayKey x = displayKey b
    · rw [idxOf?, if_pos hx]
      constructor
      · intro h
        exact Option.noConfusion h
      · intro h
        exact absurd hx (h x (List.mem_cons_self x xs))
    · rw [idxOf?, if_neg hx]
      have hmapnone : (idxOf? b xs).map Nat.succ = none ↔ idxOf? b xs = none := by
        cases idxOf? b xs <;> simp
      rw [hmapnone, ih]
      constructor
      · intro h x' hx'
        rcases List.mem_cons.mp hx' with rfl | hx''
        · exact hx
        · exact h x' hx''
      · intro h x' hx'
        exact h x' (List.mem_cons_of_mem _ hx')

theorem idxOf?_none_not_mem {b : Block} {l : List Block}
    (h : idxOf? b l = none) : b ∉ l := by
  intro hmem
  exact (idxOf?_eq_none_iff.mp h) b hmem rfl

theorem idxOf?_get {b : Block} {l : List Block} {t : Nat}
    (h : idxOf? b l = some t) :
    ∃ b', l[t]? = some b' ∧ displayKey b' = displayKey b := by
  induction l generalizing t with
  | nil => simp [idxOf?] at h
  | cons x xs ih =>
    by_cases hx : displayKey x = displayKey b
    · rw [idxOf?, if_pos hx] at h
      cases h
      exact ⟨x, by simp, hx⟩
    · rw [idxOf?, if_neg hx] at h
      rcases hmap : idxOf? b xs with _ | t'
      · rw [hmap] at h
        simp at h
      · rw [hmap] at h
        have ht : t = t' + 1 := by simpa using h.symm
        subst ht
        obtain ⟨b', hb', hkey⟩ := ih hmap
        exact ⟨b', by simpa using hb', hkey⟩

/-! ### Fold invariants -/

/-- All four grids of the state have the tile-grid shape. -/
def StateShaped (R C : Nat) (s : LoopState) : Prop :=
  GridShaped R C s.block_mask ∧ GridShaped R C s.prefetch_mask ∧
    GridShaped R C s.prefetch_i ∧ GridShaped R C s.prefetch_j

theorem initState_shaped (mask : Block) (bm bn : Nat) :
    StateShaped (rowsOf mask / bm) (colsOf mask / bn) (initState mask bm bn) :=
  ⟨zerosGrid_shaped _ _, zerosGrid_shaped _ _,
    zerosGrid_shaped _ _, zerosGrid_shaped _ _⟩

theorem stepTile_shaped {R C : Nat} {mask : Block} {dt : DType} {bm bn : Nat}
    {s : LoopState} (hs : StateShaped R C s) (p : Nat × Nat) :
    StateShaped R C (stepTile mask dt bm bn s p) := by
  obtain ⟨h1, h2, h3, h4⟩ := hs
  cases hact : tileActive mask bm bn p.1 p.2 with
  | false =>
    rw [stepTile_inactive s hact]
    exact ⟨gridSet_shaped h1 _ _ _, gridSet_shaped h2 _ _ _,
      gridSet_shaped h3 _ _ _, gridSet_shaped h4 _ _ _⟩
  | true =>
    cases hidx : idxOf? (extractBlock mask bm bn p.1 p.2) s.mask_data with
    | none =>
      rw [stepTile_active_new s hact hidx]
      exact ⟨gridSet_shaped h1 _ _ _, gridSet_shaped h2 _ _ _,
        gridSet_shaped h3 _ _ _, gridSet_shaped h4 _ _ _⟩
    | some t =>
      rw [stepTile_active_found s t hact hidx]
      exact ⟨gridSet_shaped h1 _ _ _, gridSet_shaped h2 _ _ _,
        gridSet_shaped h3 _ _ _, gridSet_shaped h4 _ _ _⟩

theorem foldl_shaped {R C : Nat} {mask : Block} {dt : DType} {bm bn : Nat}
    (L : List (Nat × Nat)) (s : LoopState) (hs : StateShaped R C s) :
    StateShaped R C (L.foldl (stepTile mask dt bm bn) s) := by
  induction L generalizing s with
  | nil => exact hs
  | cons p L ih => exact ih _ (stepTile_shaped hs p)

theorem stepTile_data_mono {mask : Block} {dt : DType} {bm bn : Nat}
    (s : LoopState) (p : Nat × Nat) :
    ∃ ext, (stepTile mask dt bm bn s p).mask_data = s.mask_data ++ ext := by
  cases hact : tileActive mask bm bn p.1 p.2 with
  | false =>
    rw [stepTile_inactive s hact]
    exact ⟨[], by simp⟩
  | true =>
    cases hidx : idxOf? (extractBlock mask bm bn p.1 p.2) s.mask_data with
    | none =>
      rw [stepTile_active_new s hact hidx]
      exact ⟨[extractBlock mask bm bn p.1 p.2], rfl⟩
    | some t =>
      rw [stepTile_active_found s t hact hidx]
      exact ⟨[], by simp⟩

theorem foldl_data_mono {mask : Block} {dt : DType} {bm bn : Nat}
    (L : List (Nat × Nat)) (s : LoopState) :
    ∃ ext, (L.foldl (stepTile mask dt bm bn) s).mask_data =
      s.mask_data ++ ext := by
  induction L generalizing s with
  | nil => exact ⟨[], by simp⟩
  | cons p L ih =>
    obtain ⟨e1, he1⟩ := @stepTile_data_mono mask dt bm bn s p
    obtain ⟨e2, he2⟩ := ih (stepTile mask dt bm bn s p)
    exact ⟨e1 ++ e2, by simp [he2, he1]⟩

theorem foldl_data_get? {mask : Block} {dt : DType} {bm bn : Nat}
    {L : List (Nat × Nat)} {s : LoopState} {t : Nat} {b : Block}
    (h : s.mask_data[t]? = some b) :
    (L.foldl (stepTile mask dt bm bn) s).mask_data[t]? = some b := by
  obtain ⟨ext, hext⟩ := @foldl_data_mono mask dt bm bn L s
  have ht : t < s.mask_data.length := (List.getElem?_eq_some.mp h).1
  rw [hext, List.getElem?_append_left ht]
  exact h

theorem stepTile_gridEntry_ne {mask : Block} {dt : DType} {bm bn : Nat}
    {s : LoopState} {p : Nat × Nat} {i0 j0 : Nat} (hp : p ≠ (i0, j0)) :
    gridEntry (stepTile mask dt bm bn s p).block_mask i0 j0 =
        gridEntry s.block_mask i0 j0 ∧
      gridEntry (stepTile mask dt bm bn s p).prefetch_mask i0 j0 =
        gridEntry s.prefetch_mask i0 j0 ∧
      gridEntry (stepTile mask dt bm bn s p).prefetch_i i0 j0 =
        gridEntry s.prefetch_i i0 j0 ∧
      gridEntry (stepTile mask dt bm bn s p).prefetch_j i0 j0 =
        gridEntry s.prefetch_j i0 j0 := by
  have hne : (i0, j0) ≠ (p.1, p.2) := by
    intro hc
    exact hp (by cases p; simp_all)
  cases hact : tileActive mask bm bn p.1 p.2 with
  | false =>
    rw [stepTile_inactive s hact]
    exact ⟨gridEntry_gridSet_ne _ hne, gridEntry_gridSet_ne _ hne,
      gridEntry_gridSet_ne _ hne, gridEntry_gridSet_ne _ hne⟩
  | true =>
    cases hidx : idxOf? (extractBlock mask bm bn p.1 p.2) s.mask_data with
    | none =>
      rw [stepTile_active_new s hact hidx]
      exact ⟨gridEntry_gridSet_ne _ hne, gridEntry_gridSet_ne _ hne,
        gridEntry_gridSet_ne _ hne, gridEntry_gridSet_ne _ hne⟩
    | some t =>
      rw [stepTile_active_found s t hact hidx]
      exact ⟨gridEntry_gridSet_ne _ hne, gridEntry_gridSet_ne _ hne,
        gridEntry_gridSet_ne _ hne, gridEntry_gridSet_ne _ hne⟩

theorem foldl_gridEntry_ne {mask : Block} {dt : DType} {bm bn : Nat}
    {L : List (Nat × Nat)} {s : LoopState} {i0 j0 : Nat}
    (h : (i0, j0) ∉ L) :
    gridEntry (L.foldl (stepTile mask dt bm bn) s).block_mask i0 j0 =
        gridEntry s.block_mask i0 j0 ∧
      gridEntry (L.foldl (stepTile mask dt bm bn) s).prefetch_mask i0 j0 =
        gridEntry s.prefetch_mask i0 j0 ∧
      gridEntry (L.foldl (stepTile mask dt bm bn) s).prefetch_i i0 j0 =
        gridEntry s.prefetch_i i0 j0 ∧
      gridEntry (L.foldl (stepTile mask dt bm bn) s).prefetch_j i0 j0 =
        gridEntry s.prefetch_j i0 j0 := by
  induction L generalizing s with
  | nil => exact ⟨rfl, rfl, rfl, rfl⟩
  | cons p L ih =>
    have hp : p ≠ (i0, j0) := by
      intro hc
      exact h (by simp [hc])
    have hL : (i0, j0) ∉ L := fun hc => h (List.mem_cons_of_mem _ hc)
    obtain ⟨e1, e2, e3, e4⟩ := ih (s := stepTile mask dt bm bn s p) hL
    obtain ⟨f1, f2, f3, f4⟩ := @stepTile_gridEntry_ne mask dt bm bn s p i0 j0 hp
    rw [List.foldl_cons]
    exact ⟨e1.trans f1, e2.trans f2, e3.trans f3, e4.trans f4⟩

theorem foldl_carried_inactive {mask : Block} {dt : DType} {bm bn : Nat}
    {L : List (Nat × Nat)} (s : LoopState)
    (h : ∀ p ∈ L, tileActive mask bm bn p.1 p.2 = false) :
    (L.foldl (stepTile mask dt bm bn) s).mask_data = s.mask_data ∧
      (L.foldl (stepTile mask dt bm bn) s).next_mask_type_idx =
        s.next_mask_type_idx ∧
      (L.foldl (stepTile mask dt bm bn) s).next_i = s.next_i ∧
      (L.foldl (stepTile mask dt bm bn) s).next_j = s.next_j := by
  induction L generalizing s with
  | nil => exact ⟨rfl, rfl, rfl, rfl⟩
  | cons p L ih =>
    have hp := h p (List.mem_cons_self p L)
    have hL : ∀ q ∈ L, tileActive mask bm bn q.1 q.2 = false :=
      fun q hq => h q (List.mem_cons_of_mem _ hq)
    rw [List.foldl_cons, stepTile_inactive s hp]
    exact ih _ hL

/-- The carried "current best known active tile" coordinates are either the
initial bottom-right sentinel or a real in-range active tile. -/
def CarriedOK (mask : Block) (bm bn : Nat) (s : LoopState) : Prop :=
  (s.next_i = ((rowsOf mask / bm : Nat) : Int) - 1 ∧
      s.next_j = ((colsOf mask / bn : Nat) : Int) - 1) ∨
    (∃ a b : Nat, a < rowsOf mask / bm ∧ b < colsOf mask / bn ∧
      tileActive mask bm bn a b = true ∧ s.next_i = a ∧ s.next_j = b)

theorem stepTile_carriedOK {mask : Block} {dt : DType} {bm bn : Nat}
    (hwf : WellFormed mask bm bn) {s : LoopState}
    (h : CarriedOK mask bm bn s) (p : Nat × Nat) :
    CarriedOK mask bm bn (stepTile mask dt bm bn s p) := by
  cases hact : tileActive mask bm bn p.1 p.2 with
  | false =>
    rw [stepTile_inactive s hact]
    exact h
  | true =>
    obtain ⟨ha, hb⟩ := tileActive_lt hwf hact
    cases hidx : idxOf? (extractBlock mask bm bn p.1 p.2) s.mask_data with
    | none =>
      rw [stepTile_active_new s hact hidx]
      exact Or.inr ⟨p.1, p.2, ha, hb, hact, rfl, rfl⟩
    | some t =>
      rw [stepTile_active_found s t hact hidx]
      exact Or.inr ⟨p.1, p.2, ha, hb, hact, rfl, rfl⟩

theorem foldl_carriedOK {mask : Block} {dt : DType} {bm bn : Nat}
    (hwf : WellFormed mask bm bn) (L : List (Nat × Nat)) {s : LoopState}
    (h : CarriedOK mask bm bn s) :
    CarriedOK mask bm bn (L.foldl (stepTile mask dt bm bn) s) := by
  induction L generalizing s with
  | nil => exact h
  | cons p L ih => exact ih (stepTile_carriedOK hwf h p)

theorem stepTile_nodup {mask : Block} {dt : DType} {bm bn : Nat}
    {s : LoopState} (h : s.mask_data.Nodup) (p : Nat × Nat) :
    (stepTile mask dt bm bn s p).mask_data.Nodup := by
  cases hact : tileActive mask bm bn p.1 p.2 with
  | false =>
    rw [stepTile_inactive s hact]
    exact h
  | true =>
    cases hidx : idxOf? (extractBlock mask bm bn p.1 p.2) s.mask_data with
    | none =>
      rw [stepTile_active_new s hact hidx]
      have hnotmem := idxOf?_none_not_mem hidx
      simp [List.nodup_append, h, hnotmem]
    | some t =>
      rw [stepTile_active_found s t hact hidx]
      exact h

theorem foldl_nodup {mask : Block} {dt : DType} {bm bn : Nat}
    (L : List (Nat × Nat)) {s : LoopState} (h : s.mask_data.Nodup) :
    (L.foldl (stepTile mask dt bm bn) s).mask_data.Nodup := by
  induction L generalizing s with
  | nil => exact h
  | cons p L ih => exact ih (stepTile_nodup h p)

/-! ### Block sizes and numpy's print threshold -/

theorem sum_le_length_mul {l : List Nat} {n : Nat} (h : ∀ x ∈ l, x ≤ n) :
    l.sum ≤ l.length * n := by
  induction l with
  | nil => simp
  | cons x xs ih =>
    have hx := h x (List.mem_cons_self x xs)
    have hxs := ih (fun y hy => h y (List.mem_cons_of_mem _ hy))
    simp only [List.sum_cons, List.length_cons]
    calc x + xs.sum ≤ n + xs.length * n := Nat.add_le_add hx hxs
      _ = (xs.length + 1) * n := by ring

theorem extractBlock_elems_le (mask : Block) (bm bn i j : Nat) :
    blockElems (extractBlock mask bm bn i j) ≤ bm * bn := by
  unfold blockElems extractBlock
  rw [List.map_map]
  have hlen : ∀ x ∈ ((mask.drop (i * bm)).take bm).map
      (List.length ∘ fun r => (r.drop (j * bn)).take bn), x ≤ bn := by
    intro x hx
    obtain ⟨r, -, rfl⟩ := List.mem_map.mp hx
    simp only [Function.comp_apply]
    exact List.length_take_le _ _
  calc (((mask.drop (i * bm)).take bm).map
      (List.length ∘ fun r => (r.drop (j * bn)).take bn)).sum
      ≤ (((mask.drop (i * bm)).take bm).map
        (List.length ∘ fun r => (r.drop (j * bn)).take bn)).length * bn :=
        sum_le_length_mul hlen
    _ ≤ bm * bn := by
        rw [List.length_map]
        exact Nat.mul_le_mul_right bn (List.length_take_le _ _)

theorem displayKey_id {b : Block} (h : blockElems b ≤ 1000) :
    displayKey b = b := by
  unfold displayKey
  rw [if_pos h]

/-- Every entry of the dedup table is an extracted content block, so it
has at most `bm * bn` elements. -/
def DataBounded (bm bn : Nat) (s : LoopState) : Prop :=
  ∀ b ∈ s.mask_data, blockElems b ≤ bm * bn

theorem stepTile_dataBounded {mask : Block} {dt : DType} {bm bn : Nat}
    {s : LoopState} (h : DataBounded bm bn s) (p : Nat × Nat) :
    DataBounded bm bn (stepTile mask dt bm bn s p) := by
  cases hact : tileActive mask bm bn p.1 p.2 with
  | false =>
    rw [stepTile_inactive s hact]
    exact h
  | true =>
    cases hidx : idxOf? (extractBlock mask bm bn p.1 p.2) s.mask_data with
    | none =>
      rw [stepTile_active_new s hact hidx]
      intro b hb
      rcases List.mem_append.mp hb with hb | hb
      · exact h b hb
      · rw [List.mem_singleton.mp hb]
        exact extractBlock_elems_le mask bm bn p.1 p.2
    | some t =>
      rw [stepTile_active_found s t hact hidx]
      exact h

theorem foldl_dataBounded {mask : Block} {dt : DType} {bm bn : Nat}
    (L : List (Nat × Nat)) {s : LoopState} (h : DataBounded bm bn s) :
    DataBounded bm bn (L.foldl (stepTile mask dt bm bn) s) := by
  induction L generalizing s with
  | nil => exact h
  | cons p L ih => exact ih (stepTile_dataBounded h p)

theorem runLoop_dataBounded (mask : Block) (dt : DType) (bm bn : Nat) :
    DataBounded bm bn (runLoop mask dt bm bn) :=
  foldl_dataBounded _ (fun b hb => absurd hb (List.not_mem_nil b))

/-- Below the threshold the display key is the content itself, so a
key-equal table entry is the content block. -/
theorem data_entry_eq_of_thresh {mask : Block} {dt : DType} {bm bn : Nat}
    (hth : bm * bn ≤ 1000) {t : Nat} {b' : Block} {i j : Nat}
    (hget : (runLoop mask dt bm bn).mask_data[t]? = some b')
    (hkey : displayKey b' = displayKey (extractBlock mask bm bn i j)) :
    b' = extractBlock mask bm bn i j := by
  have hmem : b' ∈ (runLoop mask dt bm bn).mask_data := List.getElem?_mem hget
  have hb' : blockElems b' ≤ bm * bn := runLoop_dataBounded mask dt bm bn b' hmem
  rw [displayKey_id (Nat.le_trans hb' hth),
    displayKey_id (Nat.le_trans (extractBlock_elems_le mask bm bn i j) hth)]
    at hkey
  exact hkey

/-! ### What one step writes at its own cell -/

theorem stepTile_writes_inactive {R C : Nat} {mask : Block} {dt : DType}
    {bm bn : Nat} {s : LoopState} (hs : StateShaped R C s)
    {i0 j0 : Nat} (hi : i0 < R) (hj : j0 < C)
    (hact : tileActive mask bm bn i0 j0 = false) :
    gridEntry (stepTile mask dt bm bn s (i0, j0)).block_mask i0 j0 =
        dt.cast 0 ∧
      gridEntry (stepTile mask dt bm bn s (i0, j0)).prefetch_mask i0 j0 =
        dt.cast s.next_mask_type_idx ∧
      gridEntry (stepTile mask dt bm bn s (i0, j0)).prefetch_i i0 j0 =
        dt.cast s.next_i ∧
      gridEntry (stepTile mask dt bm bn s (i0, j0)).prefetch_j i0 j0 =
        dt.cast s.next_j := by
  obtain ⟨h1, h2, h3, h4⟩ := hs
  rw [stepTile_inactive s hact]
  exact ⟨gridEntry_gridSet_self h1 hi hj _, gridEntry_gridSet_self h2 hi hj _,
    gridEntry_gridSet_self h3 hi hj _, gridEntry_gridSet_self h4 hi hj _⟩

theorem stepTile_writes_active {R C : Nat} {mask : Block} {dt : DType}
    {bm bn : Nat} {s : LoopState} (hs : StateShaped R C s)
    {i0 j0 : Nat} (hi : i0 < R) (hj : j0 < C)
    (hact : tileActive mask bm bn i0 j0 = true) :
    gridEntry (stepTile mask dt bm bn s (i0, j0)).block_mask i0 j0 =
        dt.cast 1 ∧
      gridEntry (stepTile mask dt bm bn s (i0, j0)).prefetch_i i0 j0 =
        dt.cast i0 ∧
      gridEntry (stepTile mask dt bm bn s (i0, j0)).prefetch_j i0 j0 =
        dt.cast j0 ∧
      ∃ (t : Nat) (b' : Block),
        gridEntry (stepTile mask dt bm bn s (i0, j0)).prefetch_mask i0 j0 =
          dt.cast t ∧
        (stepTile mask dt bm bn s (i0, j0)).mask_data[t]? = some b' ∧
        displayKey b' = displayKey (extractBlock mask bm bn i0 j0) := by
  obtain ⟨h1, h2, h3, h4⟩ := hs
  cases hidx : idxOf? (extractBlock mask bm bn i0 j0) s.mask_data with
  | none =>
    rw [stepTile_active_new s hact hidx]
    refine ⟨gridEntry_gridSet_self h1 hi hj _,
      gridEntry_gridSet_self h3 hi hj _, gridEntry_gridSet_self h4 hi hj _,
      s.mask_data.length, extractBlock mask bm bn i0 j0,
      gridEntry_gridSet_self h2 hi hj _, ?_, rfl⟩
    exact List.getElem?_concat_length _ _
  | some t =>
    rw [stepTile_active_found s t hact hidx]
    obtain ⟨b', hb', hkey⟩ := idxOf?_get hidx
    exact ⟨gridEntry_gridSet_self h1 hi hj _,
      gridEntry_gridSet_self h3 hi hj _, gridEntry_gridSet_self h4 hi hj _,
      t, b', gridEntry_gridSet_self h2 hi hj _, hb', hkey⟩

/-! ### Final value of each in-range cell -/

theorem runLoop_split {mask : Block} {dt : DType} {bm bn : Nat}
    {i0 j0 : Nat} (hi : i0 < rowsOf mask / bm) (hj : j0 < colsOf mask / bn) :
    ∃ P S : List (Nat × Nat), runLoop mask dt bm bn =
        S.foldl (stepTile mask dt bm bn)
          (stepTile mask dt bm bn
            (P.foldl (stepTile mask dt bm bn) (initState mask bm bn))
            (i0, j0)) ∧
      (∀ p ∈ P, p.1 ≤ rowsOf mask / bm ∧ p.2 ≤ colsOf mask / bn ∧
        scanLt (i0, j0) p) ∧
      (∀ p ∈ S, scanLt p (i0, j0)) := by
  obtain ⟨P, S, hsplit, hP, hS⟩ :=
    tileIndices_split (C := colsOf mask / bn) (Nat.le_of_lt hi) (Nat.le_of_lt hj)
  refine ⟨P, S, ?_, hP, hS⟩
  rw [runLoop, hsplit, List.foldl_append, List.foldl_cons]

theorem runLoop_cell_active {mask : Block} {dt : DType} {bm bn : Nat}
    (_hwf : WellFormed mask bm bn) {i0 j0 : Nat}
    (hi : i0 < rowsOf mask / bm) (hj : j0 < colsOf mask / bn)
    (hact : tileActive mask bm bn i0 j0 = true) :
    gridEntry (runLoop mask dt bm bn).block_mask i0 j0 = dt.cast 1 ∧
      gridEntry (runLoop mask dt bm bn).prefetch_i i0 j0 = dt.cast i0 ∧
      gridEntry (runLoop mask dt bm bn).prefetch_j i0 j0 = dt.cast j0 ∧
      ∃ (t : Nat) (b' : Block),
        gridEntry (runLoop mask dt bm bn).prefetch_mask i0 j0 = dt.cast t ∧
        (runLoop mask dt bm bn).mask_data[t]? = some b' ∧
        displayKey b' = displayKey (extractBlock mask bm bn i0 j0) := by
  obtain ⟨P, S, hrun, hP, hS⟩ := @runLoop_split mask dt bm bn i0 j0 hi hj
  have hSnot : (i0, j0) ∉ S := fun hc => (scanLt_ne (hS _ hc)) rfl
  have hshape : StateShaped (rowsOf mask / bm) (colsOf mask / bn)
      (P.foldl (stepTile mask dt bm bn) (initState mask bm bn)) :=
    foldl_shaped _ _ (initState_shaped mask bm bn)
  obtain ⟨w1, w3, w4, t, b', w2, wdata, wkey⟩ :=
    stepTile_writes_active hshape hi hj hact
  obtain ⟨e1, e2, e3, e4⟩ := foldl_gridEntry_ne
    (s := stepTile mask dt bm bn
      (P.foldl (stepTile mask dt bm bn) (initState mask bm bn)) (i0, j0)) hSnot
  rw [hrun]
  exact ⟨e1.trans w1, e3.trans w3, e4.trans w4, t, b', e2.trans w2,
    foldl_data_get? wdata, wkey⟩

theorem runLoop_cell_inactive {mask : Block} {dt : DType} {bm bn : Nat}
    (hwf : WellFormed mask bm bn) {i0 j0 : Nat}
    (hi : i0 < rowsOf mask / bm) (hj : j0 < colsOf mask / bn)
    (hact : tileActive mask bm bn i0 j0 = false) :
    gridEntry (runLoop mask dt bm bn).block_mask i0 j0 = dt.cast 0 ∧
      ∃ ni nj : Int,
        gridEntry (runLoop mask dt bm bn).prefetch_i i0 j0 = dt.cast ni ∧
        gridEntry (runLoop mask dt bm bn).prefetch_j i0 j0 = dt.cast nj ∧
        ((ni = ((rowsOf mask / bm : Nat) : Int) - 1 ∧
            nj = ((colsOf mask / bn : Nat) : Int) - 1) ∨
          (∃ a b : Nat, a < rowsOf mask / bm ∧ b < colsOf mask / bn ∧
            tileActive mask bm bn a b = true ∧ ni = a ∧ nj = b)) := by
  obtain ⟨P, S, hrun, hP, hS⟩ := @runLoop_split mask dt bm bn i0 j0 hi hj
  have hSnot : (i0, j0) ∉ S := fun hc => (scanLt_ne (hS _ hc)) rfl
  have hshape : StateShaped (rowsOf mask / bm) (colsOf mask / bn)
      (P.foldl (stepTile mask dt bm bn) (initState mask bm bn)) :=
    foldl_shaped _ _ (initState_shaped mask bm bn)
  obtain ⟨w1, w2, w3, w4⟩ := stepTile_writes_inactive hshape hi hj hact
  obtain ⟨e1, e2, e3, e4⟩ := foldl_gridEntry_ne
    (s := stepTile mask dt bm bn
      (P.foldl (stepTile mask dt bm bn) (initState mask bm bn)) (i0, j0)) hSnot
  have hcar : CarriedOK mask bm bn
      (P.foldl (stepTile mask dt bm bn) (initState mask bm bn)) :=
    foldl_carriedOK hwf P (Or.inl ⟨rfl, rfl⟩)
  rw [hrun]
  refine ⟨e1.trans w1,
    (P.foldl (stepTile mask dt bm bn) (initState mask bm bn)).next_i,
    (P.foldl (stepTile mask dt bm bn) (initState mask bm bn)).next_j,
    e3.trans w3, e4.trans w4, ?_⟩
  rcases hcar with ⟨hni, hnj⟩ | ⟨a, b, ha, hb, hab, hni, hnj⟩
  · exact Or.inl ⟨hni, hnj⟩
  · exact Or.inr ⟨a, b, ha, hb, hab, hni, hnj⟩

theorem runLoop_cell_late {mask : Block} {dt : DType} {bm bn : Nat}
    (hwf : WellFormed mask bm bn) {i0 j0 : Nat}
    (hi : i0 < rowsOf mask / bm) (hj : j0 < colsOf mask / bn)
    (hlate : ∀ a < rowsOf mask / bm, ∀ b < colsOf mask / bn,
      (scanLt (i0, j0) (a, b) ∨ (a, b) = (i0, j0)) →
        tileActive mask bm bn a b = false) :
    gridEntry (runLoop mask dt bm bn).block_mask i0 j0 = dt.cast 0 ∧
      gridEntry (runLoop mask dt bm bn).prefetch_mask i0 j0 = dt.cast 0 ∧
      gridEntry (runLoop mask dt bm bn).prefetch_i i0 j0 =
        dt.cast (((rowsOf mask / bm : Nat) : Int) - 1) ∧
      gridEntry (runLoop mask dt bm bn).prefetch_j i0 j0 =
        dt.cast (((colsOf mask / bn : Nat) : Int) - 1) := by
  obtain ⟨P, S, hrun, hP, hS⟩ := @runLoop_split mask dt bm bn i0 j0 hi hj
  have hSnot : (i0, j0) ∉ S := fun hc => (scanLt_ne (hS _ hc)) rfl
  have hshape : StateShaped (rowsOf mask / bm) (colsOf mask / bn)
      (P.foldl (stepTile mask dt bm bn) (initState mask bm bn)) :=
    foldl_shaped _ _ (initState_shaped mask bm bn)
  have hact0 : tileActive mask bm bn i0 j0 = false :=
    hlate i0 hi j0 hj (Or.inr rfl)
  have hPinact : ∀ p ∈ P, tileActive mask bm bn p.1 p.2 = false := by
    intro p hp
    obtain ⟨hp1, hp2, hplt⟩ := hP p hp
    rcases Nat.lt_or_ge p.1 (rowsOf mask / bm) with h1 | h1
    · rcases Nat.lt_or_ge p.2 (colsOf mask / bn) with h2 | h2
      · exact hlate p.1 h1 p.2 h2 (Or.inl (by simpa using hplt))
      · exact tileActive_oob hwf (Or.inr h2)
    · exact tileActive_oob hwf (Or.inl h1)
  obtain ⟨hdata, hidx, hni, hnj⟩ :=
    @foldl_carried_inactive mask dt bm bn P (initState mask bm bn) hPinact
  obtain ⟨w1, w2, w3, w4⟩ := stepTile_writes_inactive hshape hi hj hact0
  obtain ⟨e1, e2, e3, e4⟩ := foldl_gridEntry_ne
    (s := stepTile mask dt bm bn
      (P.foldl (stepTile mask dt bm bn) (initState mask bm bn)) (i0, j0)) hSnot
  rw [hrun]
  refine ⟨e1.trans w1, ?_, ?_, ?_⟩
  · rw [e2, w2, hidx]
    rfl
  · rw [e3, w3, hni]
    rfl
  · rw [e4, w4, hnj]
    rfl

theorem runLoop_first_entry {mask : Block} {dt : DType} {bm bn : Nat}
    (hwf : WellFormed mask bm bn) {a b : Nat}
    (ha : a < rowsOf mask / bm) (hb : b < colsOf mask / bn)
    (hact : tileActive mask bm bn a b = true)
    (hmax : ∀ a' < rowsOf mask / bm, ∀ b' < colsOf mask / bn,
      tileActive mask bm bn a' b' = true → ¬ scanLt (a, b) (a', b')) :
    (runLoop mask dt bm bn).mask_data[0]? =
      some (extractBlock mask bm bn a b) := by
  obtain ⟨P, S, hrun, hP, hS⟩ := @runLoop_split mask dt bm bn a b ha hb
  have hPinact : ∀ p ∈ P, tileActive mask bm bn p.1 p.2 = false := by
    intro p hp
    obtain ⟨hp1, hp2, hplt⟩ := hP p hp
    rcases Nat.lt_or_ge p.1 (rowsOf mask / bm) with h1 | h1
    · rcases Nat.lt_or_ge p.2 (colsOf mask / bn) with h2 | h2
      · rcases Bool.eq_false_or_eq_true (tileActive mask bm bn p.1 p.2)
          with ht | hf
        · exact absurd (by simpa using hplt) (hmax p.1 h1 p.2 h2 ht)
        · exact hf
      · exact tileActive_oob hwf (Or.inr h2)
    · exact tileActive_oob hwf (Or.inl h1)
  obtain ⟨hdata, -, -, -⟩ :=
    @foldl_carried_inactive mask dt bm bn P (initState mask bm bn) hPinact
  have hempty : (P.foldl (stepTile mask dt bm bn)
      (initState mask bm bn)).mask_data = [] := hdata
  have hidx : idxOf? (extractBlock mask bm bn a b)
      (P.foldl (stepTile mask dt bm bn) (initState mask bm bn)).mask_data =
        none := by
    rw [hempty]
    rfl
  have hstep := @stepTile_active_new mask dt bm bn (a, b)
    (P.foldl (stepTile mask dt bm bn) (initState mask bm bn)) hact hidx
  have hone : (stepTile mask dt bm bn
      (P.foldl (stepTile mask dt bm bn) (initState mask bm bn))
      (a, b)).mask_data[0]? = some (extractBlock mask bm bn a b) := by
    rw [hstep]
    simp [hempty]
  rw [hrun]
  exact foldl_data_get? hone

/-! ### A successful call exposes the loop state -/

theorem stack_ok_eq {l d : List Block} (h : stack l = .ok d) : d = l := by
  cases l with
  | nil => cases h
  | cons b rest =>
    have hdef : stack (b :: rest) =
        if rest.all (fun x => decide (shapeOf x = shapeOf b)) then
          Except.ok (b :: rest)
        else Except.error stackErrShape := rfl
    rw [hdef] at h
    by_cases hc : rest.all (fun x => decide (shapeOf x = shapeOf b)) = true
    · rw [if_pos hc] at h
      cases h
      rfl
    · rw [if_neg hc] at h
      cases h

theorem sparsify_ok_fields {mask : Block} {dt : DType} {bs : Nat × Nat}
    {res : SparsifyResult} (h : sparsify_mask mask dt bs = .ok res) :
    res.block_mask = (runLoop mask dt bs.1 bs.2).block_mask ∧
      res.prefetch_mask = (runLoop mask dt bs.1 bs.2).prefetch_mask ∧
      res.prefetch_i = (runLoop mask dt bs.1 bs.2).prefetch_i ∧
      res.prefetch_j = (runLoop mask dt bs.1 bs.2).prefetch_j ∧
      res.mask_data = (runLoop mask dt bs.1 bs.2).mask_data := by
  unfold sparsify_mask at h
  revert h
  cases hst : stack (runLoop mask dt bs.1 bs.2).mask_data with
  | error e =>
    intro h
    simp only [hst] at h
    exact Except.noConfusion h
  | ok d =>
    intro h
    simp only [hst, Except.ok.injEq] at h
    subst h
    exact ⟨rfl, rfl, rfl, rfl, stack_ok_eq hst⟩

/-! ### Dtype cast bounds -/

theorem cast_nonneg_bound {dt : DType} {w B : Int} (h0 : 0 ≤ w) (hB : w ≤ B) :
    0 ≤ dt.cast w ∧ dt.cast w ≤ B := by
  cases dt with
  | bool =>
    by_cases hw : w = 0
    · simp [DType.cast, hw]
      omega
    · simp only [DType.cast, if_neg hw]
      omega
  | int32 => exact ⟨h0, hB⟩

/-! ### The dedup table is the first-seen table of the reverse scan -/

/-- The deduplication table as the spec describes it: scan the tile
coordinates in the fixed descending order and append each active tile's
content block the first time it is seen. -/
def firstSeenData (mask : Block) (bm bn : Nat) : List Block :=
  (tileIndices (rowsOf mask / bm) (colsOf mask / bn)).foldl
    (fun acc p =>
      if blockNonzero (extractBlock mask bm bn p.1 p.2) = true ∧
          extractBlock mask bm bn p.1 p.2 ∉ acc then
        acc ++ [extractBlock mask bm bn p.1 p.2]
      else acc) []

theorem foldl_data_firstSeen {mask : Block} {dt : DType} {bm bn : Nat}
    (hth : bm * bn ≤ 1000) (L : List (Nat × Nat)) (s : LoopState)
    (hs : DataBounded bm bn s) :
    (L.foldl (stepTile mask dt bm bn) s).mask_data =
      L.foldl (fun acc p =>
        if blockNonzero (extractBlock mask bm bn p.1 p.2) = true ∧
            extractBlock mask bm bn p.1 p.2 ∉ acc then
          acc ++ [extractBlock mask bm bn p.1 p.2]
        else acc) s.mask_data := by
  induction L generalizing s with
  | nil => rfl
  | cons p L ih =>
    rw [List.foldl_cons, List.foldl_cons, ih _ (stepTile_dataBounded hs p)]
    congr 1
    cases hact : tileActive mask bm bn p.1 p.2 with
    | false =>
      rw [stepTile_inactive s hact]
      have : ¬ (blockNonzero (extractBlock mask bm bn p.1 p.2) = true ∧
          extractBlock mask bm bn p.1 p.2 ∉ s.mask_data) := by
        intro hc
        have := hc.1
        rw [show blockNonzero (extractBlock mask bm bn p.1 p.2) =
          tileActive mask bm bn p.1 p.2 from rfl, hact] at this
        cases this
      rw [if_neg this]
    | true =>
      cases hidx : idxOf? (extractBlock mask bm bn p.1 p.2) s.mask_data with
      | none =>
        rw [stepTile_active_new s hact hidx]
        rw [if_pos ⟨hact, idxOf?_none_not_mem hidx⟩]
      | some t =>
        rw [stepTile_active_found s t hact hidx]
        obtain ⟨b', hb', hkey⟩ := idxOf?_get hidx
        have hbmem : b' ∈ s.mask_data := List.getElem?_mem hb'
        have hbe : blockElems b' ≤ bm * bn := hs b' hbmem
        rw [displayKey_id (Nat.le_trans hbe hth),
          displayKey_id
            (Nat.le_trans (extractBlock_elems_le mask bm bn p.1 p.2) hth)]
          at hkey
        subst hkey
        rw [if_neg (by intro hc; exact hc.2 hbmem)]

theorem runLoop_data_eq_firstSeen {bm bn : Nat} (hth : bm * bn ≤ 1000)
    (mask : Block) (dt : DType) :
    (runLoop mask dt bm bn).mask_data = firstSeenData mask bm bn := by
  unfold runLoop firstSeenData
  exact foldl_data_firstSeen hth _ _
    (fun b hb => absurd hb (List.not_mem_nil b))

theorem revRange_eq_reverse_range (n : Nat) :
    revRange n = (List.range (n + 1)).reverse := by
  induction n with
  | zero => rfl
  | succ n ih =>
    rw [revRange_succ, ih]
    rw [show List.range (n + 1 + 1) = List.range (n + 1) ++ [n + 1] from
      List.range_succ (n + 1)]
    rw [List.reverse_append]
    rfl

/-! ### The out-of-range loop iterations are no-ops (towards C8) -/

/-- The in-range traversal order: only real tile coordinates,
`R-1 .. 0` by `C-1 .. 0`, in the same descending order. -/
def inRangeIndices (R C : Nat) : List (Nat × Nat) :=
  (revBelow R).flatMap (fun i => (revBelow C).map (fun j => (i, j)))

/-- Stated from the claim (C8): the same per-tile update and the same final
stacking, but iterating only over in-range tile coordinates
(`M // bm - 1` down to `0` and `N // bn - 1` down to `0`). -/
def sparsify_mask_inrange (mask : Block) (dt : DType)
    (block_shape : Nat × Nat) : Except String SparsifyResult :=
  let s := (inRangeIndices (rowsOf mask / block_shape.1)
      (colsOf mask / block_shape.2)).foldl
    (stepTile mask dt block_shape.1 block_shape.2)
    (initState mask block_shape.1 block_shape.2)
  match stack s.mask_data with
  | .error e => .error e
  | .ok d =>
      .ok { block_mask := s.block_mask
            prefetch_mask := s.prefetch_mask
            prefetch_i := s.prefetch_i
            prefetch_j := s.prefetch_j
            mask_data := d }

theorem stepTile_oob_id {mask : Block} {dt : DType} {bm bn : Nat}
    (hwf : WellFormed mask bm bn) {s : LoopState}
    (hs : StateShaped (rowsOf mask / bm) (colsOf mask / bn) s)
    {p : Nat × Nat}
    (hp : rowsOf mask / bm ≤ p.1 ∨ colsOf mask / bn ≤ p.2) :
    stepTile mask dt bm bn s p = s := by
  have hact := tileActive_oob hwf hp
  rw [stepTile_inactive s hact]
  obtain ⟨h1, h2, h3, h4⟩ := hs
  rw [gridSet_oob h1 hp, gridSet_oob h2 hp, gridSet_oob h3 hp,
    gridSet_oob h4 hp]

theorem foldl_filter_inrange {mask : Block} {dt : DType} {bm bn : Nat}
    (hwf : WellFormed mask bm bn) (L : List (Nat × Nat)) (s : LoopState)
    (hs : StateShaped (rowsOf mask / bm) (colsOf mask / bn) s) :
    L.foldl (stepTile mask dt bm bn) s =
      (L.filter (fun p => decide (p.1 < rowsOf mask / bm) &&
        decide (p.2 < colsOf mask / bn))).foldl (stepTile mask dt bm bn) s := by
  induction L generalizing s with
  | nil => rfl
  | cons p L ih =>
    by_cases hk : p.1 < rowsOf mask / bm ∧ p.2 < colsOf mask / bn
    · rw [List.foldl_cons,
        List.filter_cons_of_pos (by simp [hk.1, hk.2]), List.foldl_cons]
      exact ih _ (stepTile_shaped hs p)
    · have hoob : rowsOf mask / bm ≤ p.1 ∨ colsOf mask / bn ≤ p.2 := by
        omega
      rw [List.foldl_cons, stepTile_oob_id hwf hs hoob,
        List.filter_cons_of_neg (by simp; omega)]
      exact ih _ hs

theorem filter_flatMap_comm {α β : Type} (l : List α) (g : α → List β)
    (q : β → Bool) :
    (l.flatMap g).filter q = l.flatMap (fun a => (g a).filter q) := by
  induction l with
  | nil => rfl
  | cons x xs ih => simp [List.filter_append, ih]

theorem flatMap_congr_mem {α β : Type} {l : List α} {f g : α → List β}
    (h : ∀ a ∈ l, f a = g a) : l.flatMap f = l.flatMap g := by
  induction l with
  | nil => rfl
  | cons x xs ih =>
    rw [List.flatMap_cons, List.flatMap_cons, h x (List.mem_cons_self x xs),
      ih (fun a ha => h a (List.mem_cons_of_mem _ ha))]

theorem revRange_filter_lt (C : Nat) :
    (revRange C).filter (fun j => decide (j < C)) = revBelow C := by
  rw [revRange, List.filter_cons_of_neg (by simp)]
  rw [List.filter_eq_self.mpr]
  intro a ha
  simp [mem_revBelow.mp ha]

theorem tileIndices_filter (R C : Nat) :
    (tileIndices R C).filter (fun p => decide (p.1 < R) && decide (p.2 < C)) =
      inRangeIndices R C := by
  unfold tileIndices inRangeIndices
  rw [filter_flatMap_comm]
  have hrow : ∀ i, ((revRange C).map (fun j => (i, j))).filter
      (fun p => decide (p.1 < R) && decide (p.2 < C)) =
        if i < R then (revBelow C).map (fun j => (i, j)) else [] := by
    intro i
    rw [List.filter_map]
    by_cases hiR : i < R
    · rw [if_pos hiR]
      have : ((fun p : Nat × Nat => decide (p.1 < R) && decide (p.2 < C)) ∘
          (fun j => (i, j))) = (fun j => decide (j < C)) := by
        funext j
        simp [hiR]
      rw [this, revRange_filter_lt]
    · rw [if_neg hiR]
      have : ((fun p : Nat × Nat => decide (p.1 < R) && decide (p.2 < C)) ∘
          (fun j => (i, j))) = (fun _ => false) := by
        funext j
        simp [hiR]
      rw [this]
      simp
  calc (revRange R).flatMap (fun i => ((revRange C).map (fun j => (i, j))).filter
      (fun p => decide (p.1 < R) && decide (p.2 < C)))
      = (revRange R).flatMap (fun i =>
          if i < R then (revBelow C).map (fun j => (i, j)) else []) :=
        flatMap_congr_mem (fun i _ => hrow i)
    _ = (revBelow R).flatMap (fun i => (revBelow C).map (fun j => (i, j))) := by
        rw [revRange, List.flatMap_cons, if_neg (by omega), List.nil_append]
        exact flatMap_congr_mem (fun i hi => by
          rw [if_pos (mem_revBelow.mp hi)])

theorem runLoop_eq_inrange {mask : Block} {dt : DType} {bm bn : Nat}
    (hwf : WellFormed mask bm bn) :
    runLoop mask dt bm bn =
      (inRangeIndices (rowsOf mask / bm) (colsOf mask / bn)).foldl
        (stepTile mask dt bm bn) (initState mask bm bn) := by
  rw [runLoop, foldl_filter_inrange hwf _ _ (initState_shaped mask bm bn),
    tileIndices_filter]

instance {ε α : Type} [DecidableEq ε] [DecidableEq α] :
    DecidableEq (Except ε α) := fun a b =>
  match a, b with
  | .ok x, .ok y =>
      if h : x = y then .isTrue (by rw [h])
      else .isFalse (by intro hc; cases hc; exact h rfl)
  | .error x, .error y =>
      if h : x = y then .isTrue (by rw [h])
      else .isFalse (by intro hc; cases hc; exact h rfl)
  | .ok _, .error _ => .isFalse (by intro hc; cases hc)
  | .error _, .ok _ => .isFalse (by intro hc; cases hc)

/-! ### All-zero masks -/

theorem zero_entries_mem {mask : Block}
    (hz : ∀ a b : Nat, gridEntry mask a b = 0) :
    ∀ r ∈ mask, ∀ v ∈ r, v = 0 := by
  intro r hr v hv
  obtain ⟨a, ha, hra⟩ := List.getElem_of_mem hr
  obtain ⟨b, hb, hvb⟩ := List.getElem_of_mem hv
  have := hz a b
  rw [gridEntry_def, List.getElem?_eq_getElem ha, Option.getD_some, hra,
    List.getElem?_eq_getElem hb, Option.getD_some, hvb] at this
  exact this

theorem sparsify_allzero_error {mask : Block} {dt : DType} {bs : Nat × Nat}
    (hz : ∀ r ∈ mask, ∀ v ∈ r, v = 0) :
    sparsify_mask mask dt bs = .error stackErrEmpty := by
  have hinact : ∀ p ∈ tileIndices (rowsOf mask / bs.1) (colsOf mask / bs.2),
      tileActive mask bs.1 bs.2 p.1 p.2 = false :=
    fun p _ => blockNonzero_false_of_zero hz
  have hdata : (runLoop mask dt bs.1 bs.2).mask_data = [] :=
    (foldl_carried_inactive (initState mask bs.1 bs.2) hinact).1
  unfold sparsify_mask
  simp only [hdata]
  rfl

/-! ### Truncation to whole tiles (towards C1) -/

/-- The mask truncated to a whole number of tiles:
`mask[: (M // bm) * bm, : (N // bn) * bn]`. -/
def truncMask (mask : Block) (bm bn : Nat) : Block :=
  (mask.take ((rowsOf mask / bm) * bm)).map
    (fun r => r.take ((colsOf mask / bn) * bn))

theorem truncMask_zero {mask : Block} {bm bn : Nat}
    (h : ∀ r ∈ mask, ∀ v ∈ r, v = 0) :
    ∀ r ∈ truncMask mask bm bn, ∀ v ∈ r, v = 0 := by
  intro r hr v hv
  obtain ⟨r0, hr0, rfl⟩ := List.mem_map.mp hr
  exact h r0 (List.take_subset _ _ hr0) v (List.take_subset _ _ hv)

theorem rowsOf_trunc (mask : Block) (bm bn : Nat) :
    rowsOf (truncMask mask bm bn) = (rowsOf mask / bm) * bm := by
  unfold truncMask rowsOf
  rw [List.length_map, List.length_take]
  exact Nat.min_eq_left (Nat.div_mul_le_self _ _)

theorem colsOf_trunc {mask : Block} {bm bn : Nat}
    (hbm : 0 < bm) (hR : 0 < rowsOf mask / bm) :
    colsOf (truncMask mask bm bn) = (colsOf mask / bn) * bn := by
  have hM : 0 < rowsOf mask := by
    have := Nat.div_mul_le_self (rowsOf mask) bm
    have hRbm : 0 < (rowsOf mask / bm) * bm := Nat.mul_pos hR hbm
    omega
  obtain ⟨r0, rest, rfl⟩ : ∃ r0 rest, mask = r0 :: rest := by
    cases mask with
    | nil => simp [rowsOf] at hM
    | cons a l => exact ⟨a, l, rfl⟩
  have hpos : 0 < (rowsOf (r0 :: rest) / bm) * bm :=
    Nat.mul_pos hR hbm
  unfold truncMask colsOf
  rw [show (rowsOf (r0 :: rest) / bm) * bm =
    ((rowsOf (r0 :: rest) / bm) * bm - 1) + 1 by omega]
  rw [List.take_succ_cons, List.map_cons]
  simp only [List.headD_cons]
  rw [List.length_take]
  apply Nat.min_eq_left
  exact Nat.div_mul_le_self _ _

theorem rect_trunc {mask : Block} {bm bn : Nat} (hrect : Rectangular mask)
    (hbm : 0 < bm) (hR : 0 < rowsOf mask / bm) :
    Rectangular (truncMask mask bm bn) := by
  intro r hr
  obtain ⟨r0, hr0, rfl⟩ := List.mem_map.mp hr
  rw [colsOf_trunc hbm hR, List.length_take]
  apply Nat.min_eq_left
  rw [hrect r0 (List.take_subset _ _ hr0)]
  exact Nat.div_mul_le_self _ _

theorem wf_trunc {mask : Block} {bm bn : Nat} (hrect : Rectangular mask)
    (hbm : 0 < bm) (hbn : 0 < bn) (hR : 0 < rowsOf mask / bm) :
    WellFormed (truncMask mask bm bn) bm bn := by
  refine ⟨rect_trunc hrect hbm hR, hbm, hbn, ?_, ?_⟩
  · rw [rowsOf_trunc]
    simp [Nat.mul_mod_left]
  · rw [colsOf_trunc hbm hR]
    simp [Nat.mul_mod_left]

theorem rows_div_trunc {mask : Block} {bm bn : Nat} (hbm : 0 < bm) :
    rowsOf (truncMask mask bm bn) / bm = rowsOf mask / bm := by
  rw [rowsOf_trunc]
  exact Nat.mul_div_cancel _ hbm

theorem cols_div_trunc {mask : Block} {bm bn : Nat}
    (hbm : 0 < bm) (hbn : 0 < bn) (hR : 0 < rowsOf mask / bm) :
    colsOf (truncMask mask bm bn) / bn = colsOf mask / bn := by
  rw [colsOf_trunc hbm hR]
  exact Nat.mul_div_cancel _ hbn

theorem extractBlock_trunc_eq {mask : Block} {bm bn i j : Nat}
    (hi : i < rowsOf mask / bm) (hj : j < colsOf mask / bn) :
    extractBlock (truncMask mask bm bn) bm bn i j =
      extractBlock mask bm bn i j := by
  unfold extractBlock truncMask
  rw [← List.map_drop, ← List.map_take, List.map_map]
  rw [List.drop_take, List.take_take]
  have hbm' : bm ≤ (rowsOf mask / bm) * bm - i * bm := by
    have h2 : (i + 1) * bm ≤ (rowsOf mask / bm) * bm :=
      Nat.mul_le_mul_right bm hi
    rw [Nat.succ_mul] at h2
    omega
  rw [Nat.min_eq_left hbm']
  apply List.map_congr_left
  intro r _
  simp only [Function.comp_apply]
  rw [List.drop_take, List.take_take]
  have hbn' : bn ≤ (colsOf mask / bn) * bn - j * bn := by
    have h2 : (j + 1) * bn ≤ (colsOf mask / bn) * bn :=
      Nat.mul_le_mul_right bn hj
    rw [Nat.succ_mul] at h2
    omega
  rw [Nat.min_eq_left hbn']

theorem initState_trunc {mask : Block} {bm bn : Nat}
    (hbm : 0 < bm) (hbn : 0 < bn) (hR : 0 < rowsOf mask / bm) :
    initState (truncMask mask bm bn) bm bn = initState mask bm bn := by
  unfold initState
  rw [rows_div_trunc hbm, cols_div_trunc hbm hbn hR]

theorem foldl_congr_masks {mask1 mask2 : Block} {dt : DType} {bm bn : Nat}
    (L : List (Nat × Nat))
    (h : ∀ p ∈ L,
      extractBlock mask1 bm bn p.1 p.2 = extractBlock mask2 bm bn p.1 p.2 ∨
      (tileActive mask1 bm bn p.1 p.2 = false ∧
        tileActive mask2 bm bn p.1 p.2 = false)) :
    ∀ s, L.foldl (stepTile mask1 dt bm bn) s =
      L.foldl (stepTile mask2 dt bm bn) s := by
  induction L with
  | nil => intro s; rfl
  | cons p L ih =>
    intro s
    have hstep : stepTile mask1 dt bm bn s p = stepTile mask2 dt bm bn s p := by
      rcases h p (List.mem_cons_self p L) with hb | ⟨h1, h2⟩
      · simp only [stepTile, hb]
      · rw [stepTile_inactive s h1, stepTile_inactive s h2]
    rw [List.foldl_cons, List.foldl_cons, hstep]
    exact ih (fun q hq => h q (List.mem_cons_of_mem _ hq)) _

theorem sparsify_trunc_eq {mask : Block} {dt : DType} {bm bn : Nat}
    (hrect : Rectangular mask) (hbm : 0 < bm) (hbn : 0 < bn)
    (hz : ∀ a < rowsOf mask, ∀ b < colsOf mask,
      ((rowsOf mask / bm) * bm ≤ a ∨ (colsOf mask / bn) * bn ≤ b) →
        gridEntry mask a b = 0) :
    sparsify_mask mask dt (bm, bn) =
      sparsify_mask (truncMask mask bm bn) dt (bm, bn) := by
  have hzu := zeroRegion_unbounded hrect hz
  by_cases hdeg : rowsOf mask / bm = 0 ∨ colsOf mask / bn = 0
  · have hall : ∀ a b : Nat, gridEntry mask a b = 0 := by
      intro a b
      apply hzu
      rcases hdeg with hd | hd
      · exact Or.inl (by simp [hd])
      · exact Or.inr (by simp [hd])
    have hmem := zero_entries_mem hall
    rw [@sparsify_allzero_error mask dt (bm, bn) hmem,
      @sparsify_allzero_error (truncMask mask bm bn) dt (bm, bn)
        (truncMask_zero hmem)]
  · push_neg at hdeg
    have hR : 0 < rowsOf mask / bm := Nat.pos_of_ne_zero hdeg.1
    have hwt : WellFormed (truncMask mask bm bn) bm bn :=
      wf_trunc hrect hbm hbn hR
    have hRd : rowsOf (truncMask mask bm bn) / bm = rowsOf mask / bm :=
      rows_div_trunc hbm
    have hCd : colsOf (truncMask mask bm bn) / bn = colsOf mask / bn :=
      cols_div_trunc hbm hbn hR
    have hcond : ∀ p ∈ tileIndices (rowsOf mask / bm) (colsOf mask / bn),
        extractBlock mask bm bn p.1 p.2 =
          extractBlock (truncMask mask bm bn) bm bn p.1 p.2 ∨
        (tileActive mask bm bn p.1 p.2 = false ∧
          tileActive (truncMask mask bm bn) bm bn p.1 p.2 = false) := by
      intro p hp
      by_cases hin : p.1 < rowsOf mask / bm ∧ p.2 < colsOf mask / bn
      · exact Or.inl (extractBlock_trunc_eq hin.1 hin.2).symm
      · have hoob : rowsOf mask / bm ≤ p.1 ∨ colsOf mask / bn ≤ p.2 := by
          omega
        refine Or.inr ⟨tileActive_false_outside hzu hoob, ?_⟩
        apply tileActive_oob hwt
        rw [hRd, hCd]
        exact hoob
    have hfold : runLoop mask dt bm bn =
        runLoop (truncMask mask bm bn) dt bm bn := by
      unfold runLoop
      rw [hRd, hCd, initState_trunc hbm hbn hR]
      exact foldl_congr_masks _ hcond _
    simp only [sparsify_mask, hfold]

/-! ### The dtype collapse (towards C10) -/

/-- Apply a scalar cast entrywise to a grid. -/
def mapGrid (f : Int → Int) (g : Grid) : Grid := g.map (fun r => r.map f)

theorem getD_mapGrid (f : Int → Int) (g : Grid) (i : Nat) :
    (mapGrid f g).getD i [] = (g.getD i []).map f := by
  unfold mapGrid
  rcases Nat.lt_or_ge i g.length with hi | hi
  · rw [List.getD_eq_getElem?_getD, List.getElem?_map,
      List.getElem?_eq_getElem hi]
    rw [List.getD_eq_getElem?_getD, List.getElem?_eq_getElem hi]
    rfl
  · rw [List.getD_eq_getElem?_getD, List.getElem?_map,
      List.getElem?_eq_none (by simpa using hi)]
    rw [List.getD_eq_getElem?_getD, List.getElem?_eq_none hi]
    rfl

theorem gridSet_mapGrid (f : Int → Int) (g : Grid) (i j : Nat) (v : Int) :
    gridSet (mapGrid f g) i j (f v) = mapGrid f (gridSet g i j v) := by
  unfold gridSet
  rw [getD_mapGrid]
  show (mapGrid f g).set i (((g.getD i []).map f).set j (f v)) = _
  rw [← List.map_set]
  unfold mapGrid
  rw [← List.map_set]

theorem mapGrid_zeros (f : Int → Int) (hf : f 0 = 0) (R C : Nat) :
    mapGrid f (zerosGrid R C) = zerosGrid R C := by
  unfold mapGrid zerosGrid
  rw [List.map_replicate, List.map_replicate, hf]

/-- The bool-dtype run of the loop relates to the int32 run: grids are the
entrywise boolean cast of the int32 grids, and everything else is equal. -/
def BoolRel (sb si : LoopState) : Prop :=
  sb.block_mask = mapGrid DType.bool.cast si.block_mask ∧
    sb.prefetch_mask = mapGrid DType.bool.cast si.prefetch_mask ∧
    sb.prefetch_i = mapGrid DType.bool.cast si.prefetch_i ∧
    sb.prefetch_j = mapGrid DType.bool.cast si.prefetch_j ∧
    sb.mask_data = si.mask_data ∧
    sb.next_mask_type_idx = si.next_mask_type_idx ∧
    sb.next_i = si.next_i ∧ sb.next_j = si.next_j

theorem stepTile_boolRel {mask : Block} {bm bn : Nat} {sb si : LoopState}
    (h : BoolRel sb si) (p : Nat × Nat) :
    BoolRel (stepTile mask DType.bool bm bn sb p)
      (stepTile mask DType.int32 bm bn si p) := by
  obtain ⟨h1, h2, h3, h4, h5, h6, h7, h8⟩ := h
  cases hact : tileActive mask bm bn p.1 p.2 with
  | false =>
    rw [stepTile_inactive sb hact, stepTile_inactive si hact]
    refine ⟨?_, ?_, ?_, ?_, h5, h6, h7, h8⟩
    · show gridSet sb.block_mask p.1 p.2 (DType.bool.cast 0) = _
      rw [h1, gridSet_mapGrid]
      rfl
    · show gridSet sb.prefetch_mask p.1 p.2
        (DType.bool.cast sb.next_mask_type_idx) = _
      rw [h2, h6, gridSet_mapGrid]
      rfl
    · show gridSet sb.prefetch_i p.1 p.2 (DType.bool.cast sb.next_i) = _
      rw [h3, h7, gridSet_mapGrid]
      rfl
    · show gridSet sb.prefetch_j p.1 p.2 (DType.bool.cast sb.next_j) = _
      rw [h4, h8, gridSet_mapGrid]
      rfl
  | true =>
    cases hidx : idxOf? (extractBlock mask bm bn p.1 p.2) si.mask_data with
    | none =>
      have hidxb : idxOf? (extractBlock mask bm bn p.1 p.2) sb.mask_data =
          none := by rw [h5]; exact hidx
      rw [stepTile_active_new sb hact hidxb, stepTile_active_new si hact hidx]
      refine ⟨?_, ?_, ?_, ?_, by rw [h5], by rw [h5], rfl, rfl⟩
      · rw [h1, gridSet_mapGrid]
        rfl
      · rw [h2, h5, gridSet_mapGrid]
        rfl
      · rw [h3, gridSet_mapGrid]
        rfl
      · rw [h4, gridSet_mapGrid]
        rfl
    | some t =>
      have hidxb : idxOf? (extractBlock mask bm bn p.1 p.2) sb.mask_data =
          some t := by rw [h5]; exact hidx
      rw [stepTile_active_found sb t hact hidxb,
        stepTile_active_found si t hact hidx]
      refine ⟨?_, ?_, ?_, ?_, h5, rfl, rfl, rfl⟩
      · rw [h1, gridSet_mapGrid]
        rfl
      · rw [h2, gridSet_mapGrid]
        rfl
      · rw [h3, gridSet_mapGrid]
        rfl
      · rw [h4, gridSet_mapGrid]
        rfl

theorem foldl_boolRel {mask : Block} {bm bn : Nat} (L : List (Nat × Nat))
    {sb si : LoopState} (h : BoolRel sb si) :
    BoolRel (L.foldl (stepTile mask DType.bool bm bn) sb)
      (L.foldl (stepTile mask DType.int32 bm bn) si) := by
  induction L generalizing sb si with
  | nil => exact h
  | cons p L ih => exact ih (stepTile_boolRel h p)

theorem runLoop_boolRel (mask : Block) (bm bn : Nat) :
    BoolRel (runLoop mask DType.bool bm bn)
      (runLoop mask DType.int32 bm bn) := by
  unfold runLoop
  exact foldl_boolRel _
    ⟨(mapGrid_zeros _ rfl _ _).symm, (mapGrid_zeros _ rfl _ _).symm,
      (mapGrid_zeros _ rfl _ _).symm, (mapGrid_zeros _ rfl _ _).symm,
      rfl, rfl, rfl, rfl⟩

theorem cast_zero (dt : DType) : dt.cast 0 = 0 := by
  cases dt <;> simp [DType.cast]

/-! ### Example inputs -/

/-- The spec's §8 fixture: 4×4 mask, block (2,2), two active tiles with
distinct contents. -/
def exScenario : Block := [[1, 0, 0, 0], [0, 0, 0, 0], [0, 0, 1, 1], [0, 0, 1, 1]]

/-- A 3×2 mask: 3 rows are not divisible by block rows 2; the third row is
zero, so the bottom row is silently dropped. -/
def exNonDiv : Block := [[1, 0], [0, 0], [0, 0]]

/-- The all-zero 4×4 mask of the spec's §8 all-zero scenario. -/
def exZero4 : Block := [[0, 0, 0, 0], [0, 0, 0, 0], [0, 0, 0, 0], [0, 0, 0, 0]]

/-- A 2×6 boolean mask whose three tiles hold three distinct non-zero
contents, so dedup indices 0, 1 and 2 are all assigned. -/
def exThreeTypes : Block := [[1, 0, 0, 1, 1, 1], [0, 0, 0, 0, 0, 0]]

/-- A 2×4 mask whose only active tile is (0,0); tile (0,1) is visited
before it in the reverse scan, so it receives the initial sentinel. -/
def exOneActive : Block := [[1, 0, 0, 0], [0, 0, 0, 0]]

/-- A 6×2 mask with 3 tile rows; only tile (0,0) is active, so the late
tiles store the sentinel row coordinate 2, which a boolean dtype collapses
to 1. -/
def exTall : Block := [[1, 0], [0, 0], [0, 0], [0, 0], [0, 0], [0, 0]]

/-! ### C1 -/

/-- C1 counterexample: the 3×2 mask `exNonDiv` with block shape (2,2) has
`rows % blockRows = 1 ≠ 0`, yet `sparsify_mask` raises no
DimensionMismatch — it returns normally with the 1×1 tile grid of the
truncated mask (the third row is silently dropped). -/
theorem sparsify_mask_nondivisible_ok_cex :
    rowsOf exNonDiv % 2 ≠ 0 ∧
      sparsify_mask exNonDiv DType.int32 (2, 2) =
        .ok { block_mask := [[1]], prefetch_mask := [[0]],
              prefetch_i := [[0]], prefetch_j := [[0]],
              mask_data := [[[1, 0], [0, 0]]] } :=
  ⟨by decide, by decide⟩

/-- C1 (amended): `sparsify_mask` contains no divisibility check and never
raises a DimensionMismatch.  For a rectangular mask whose dimensions are
not divisible by the block shape but whose elements outside the
whole-tile region are all zero, the call behaves exactly as on the mask
truncated to ⌊M/bm⌋·bm × ⌊N/bn⌋·bn: it silently truncates instead of
failing. -/
theorem sparsify_mask_nondivisible_truncates
    (mask : Block) (dt : DType) (bm bn : Nat)
    (hrect : Rectangular mask) (hbm : 0 < bm) (hbn : 0 < bn)
    (_hnd : ¬ (rowsOf mask % bm = 0 ∧ colsOf mask % bn = 0))
    (hz : ∀ a < rowsOf mask, ∀ b < colsOf mask,
      ((rowsOf mask / bm) * bm ≤ a ∨ (colsOf mask / bn) * bn ≤ b) →
        gridEntry mask a b = 0) :
    sparsify_mask mask dt (bm, bn) =
      sparsify_mask (truncMask mask bm bn) dt (bm, bn) :=
  sparsify_trunc_eq hrect hbm hbn hz

theorem sparsify_mask_nondivisible_truncates_witness :
    sparsify_mask exNonDiv DType.int32 (2, 2) =
      sparsify_mask (truncMask exNonDiv 2 2) DType.int32 (2, 2) :=
  sparsify_mask_nondivisible_truncates exNonDiv DType.int32 2 2
    (by decide) (by decide) (by decide) (by decide) (by decide)

/-! ### C2 -/

/-- C2 counterexample: on the well-formed all-zero 4×4 boolean mask with
block (2,2), `sparsify_mask` does not return normally: `jnp.stack` of the
empty `mask_data` raises, so the call fails. -/
theorem sparsify_mask_allzero_raises_cex :
    sparsify_mask exZero4 DType.bool (2, 2) = .error stackErrEmpty := by
  decide

/-- C2 (amended): for every well-formed all-zero mask the loop does fill
the grids with the defaults the claim describes — ActiveFlag all false
(0), ContentIndex all 0, Next* equal to the sentinel
(numTileRows-1, numTileCols-1) cast to the mask's dtype — and the dedup
table stays empty; but `sparsify_mask` then raises at the final
`jnp.stack(mask_data)` because the list is empty, instead of returning
normally. -/
theorem sparsify_mask_allzero_defaults_then_error
    (mask : Block) (dt : DType) (bm bn : Nat)
    (hwf : WellFormed mask bm bn)
    (hz : ∀ r ∈ mask, ∀ v ∈ r, v = 0) :
    sparsify_mask mask dt (bm, bn) = .error stackErrEmpty ∧
      (runLoop mask dt bm bn).mask_data = [] ∧
      ∀ i j : Nat, i < rowsOf mask / bm → j < colsOf mask / bn →
        gridEntry (runLoop mask dt bm bn).block_mask i j = 0 ∧
        gridEntry (runLoop mask dt bm bn).prefetch_mask i j = 0 ∧
        gridEntry (runLoop mask dt bm bn).prefetch_i i j =
          dt.cast (((rowsOf mask / bm : Nat) : Int) - 1) ∧
        gridEntry (runLoop mask dt bm bn).prefetch_j i j =
          dt.cast (((colsOf mask / bn : Nat) : Int) - 1) := by
  have hinact : ∀ a b : Nat, tileActive mask bm bn a b = false :=
    fun a b => blockNonzero_false_of_zero hz
  refine ⟨@sparsify_allzero_error mask dt (bm, bn) hz, ?_, ?_⟩
  · exact (foldl_carried_inactive (initState mask bm bn)
      (fun p _ => hinact p.1 p.2)).1
  · intro i j hi hj
    obtain ⟨hbm2, hpm, hpi, hpj⟩ := @runLoop_cell_late mask dt bm bn hwf i j hi hj
      (fun a _ b _ _ => hinact a b)
    exact ⟨by rw [hbm2, cast_zero], by rw [hpm, cast_zero], hpi, hpj⟩

theorem sparsify_mask_allzero_defaults_then_error_witness :
    sparsify_mask exZero4 DType.bool (2, 2) = .error stackErrEmpty ∧
      (runLoop exZero4 DType.bool 2 2).mask_data = [] ∧
      gridEntry (runLoop exZero4 DType.bool 2 2).prefetch_i 0 1 =
        DType.bool.cast (((rowsOf exZero4 / 2 : Nat) : Int) - 1) := by
  have h := sparsify_mask_allzero_defaults_then_error exZero4 DType.bool 2 2
    (by decide) (by decide)
  exact ⟨h.1, h.2.1, (h.2.2 0 1 (by decide) (by decide)).2.2.1⟩

/-! ### C6 -/

/-- A 7 × 286 mask whose two 7 × 143 blocks (1001 elements each, above
numpy's print threshold of 1000) are distinct but share a display key:
each block's sole non-zero entry sits at row 3, a row that the summarised
`str` (edgeitems = 3, so rows 0-2 and 4-6 of 7) does not print. -/
def exBig : Block :=
  (List.replicate 7 (List.replicate 286 (0 : Int))).set 3
    (((List.replicate 286 (0 : Int)).set 50 5).set 193 7)

set_option maxRecDepth 10000 in
/-- C6 counterexample: on `exBig` with block shape (7, 143) the reverse
scan meets tile (0,1) first and registers its content; tile (0,0) has a
distinct content but the same display key (both blocks exceed numpy's
1000-element print threshold and agree on the printed edge elements), so
the `str`-keyed lookup finds the existing entry and tile (0,0)'s content
is never inserted.  The dedup table therefore is NOT the first-seen
sequence of distinct non-zero block contents. -/
theorem sparsify_mask_first_seen_order_cex :
    WellFormed exBig 7 143 ∧
      tileActive exBig 7 143 0 0 = true ∧
      tileActive exBig 7 143 0 1 = true ∧
      extractBlock exBig 7 143 0 0 ≠ extractBlock exBig 7 143 0 1 ∧
      (runLoop exBig DType.int32 7 143).mask_data ≠
        firstSeenData exBig 7 143 := by
  decide

/-- C6 (amended): the traversal order is fixed — the scan list is exactly
`reverse (range (R+1))` by `reverse (range (C+1))`, i.e. descending
tile-row and, within a row, descending tile-col.  Dedup insertion order is
first-seen along this scan, but keyed by the numpy `str` rendering of the
block: only when the block size `bm * bn` is within numpy's print
threshold of 1000 elements (so the rendering shows every element and the
key is injective on blocks) is entry `k` the `k`-th distinct non-zero
block content encountered; above the threshold, distinct contents sharing
a summarised rendering are merged into one entry. -/
theorem sparsify_mask_first_seen_order (mask : Block) (dt : DType)
    (bm bn : Nat) :
    tileIndices (rowsOf mask / bm) (colsOf mask / bn) =
      ((List.range (rowsOf mask / bm + 1)).reverse).flatMap (fun i =>
        ((List.range (colsOf mask / bn + 1)).reverse).map (fun j => (i, j))) ∧
      (bm * bn ≤ 1000 →
        (runLoop mask dt bm bn).mask_data = firstSeenData mask bm bn ∧
        ∀ res : SparsifyResult, sparsify_mask mask dt (bm, bn) = .ok res →
          res.mask_data = firstSeenData mask bm bn) := by
  refine ⟨?_, fun hth => ⟨runLoop_data_eq_firstSeen hth mask dt, ?_⟩⟩
  · unfold tileIndices
    rw [revRange_eq_reverse_range, revRange_eq_reverse_range]
  · intro res hok
    rw [(sparsify_ok_fields hok).2.2.2.2]
    exact runLoop_data_eq_firstSeen hth mask dt

theorem sparsify_mask_first_seen_order_witness :
    2 * 2 ≤ 1000 ∧
      (runLoop exScenario DType.int32 2 2).mask_data =
        firstSeenData exScenario 2 2 ∧
      firstSeenData exScenario 2 2 =
        [[[1, 1], [1, 1]], [[1, 0], [0, 0]]] := by
  refine ⟨by decide,
    ((sparsify_mask_first_seen_order exScenario DType.int32 2 2).2
      (by decide)).1, ?_⟩
  decide

/-! ### C7 -/

/-- C7: `sparsify_mask` is a pure, deterministic function of its inputs:
two runs on equal inputs return identical results, including identical
mask_data order and index grids.  (The embedding is side-effect free by
construction; the source's only mutation is of function-local lists and
the functional `.at[].set` updates.) -/
theorem sparsify_mask_deterministic
    (m1 m2 : Block) (d1 d2 : DType) (b1 b2 : Nat × Nat)
    (hm : m1 = m2) (hd : d1 = d2) (hb : b1 = b2) :
    sparsify_mask m1 d1 b1 = sparsify_mask m2 d2 b2 := by
  subst hm
  subst hd
  subst hb
  rfl

theorem sparsify_mask_deterministic_witness :
    sparsify_mask exScenario DType.int32 (2, 2) =
      sparsify_mask exScenario DType.int32 (2, 2) :=
  sparsify_mask_deterministic exScenario exScenario DType.int32 DType.int32
    (2, 2) (2, 2) rfl rfl rfl

/-! ### C8 -/

/-- C8: the two loops run one index beyond the tile grid on each axis
(`range(R, -1, -1)` and `range(C, -1, -1)`), but for every well-formed
input the result equals that of the identical algorithm restricted to
in-range tile coordinates: the out-of-range block extraction is empty,
hence classified inactive and never registered, the carried next-active
state is not updated, and the out-of-range grid writes are dropped. -/
theorem sparsify_mask_overrun_harmless (mask : Block) (dt : DType)
    (bm bn : Nat) (hwf : WellFormed mask bm bn) :
    sparsify_mask mask dt (bm, bn) = sparsify_mask_inrange mask dt (bm, bn) := by
  simp only [sparsify_mask, sparsify_mask_inrange, runLoop_eq_inrange hwf]

theorem sparsify_mask_overrun_harmless_witness :
    sparsify_mask exScenario DType.int32 (2, 2) =
      sparsify_mask_inrange exScenario DType.int32 (2, 2) :=
  sparsify_mask_overrun_harmless exScenario DType.int32 2 2 (by decide)

/-! ### C10 -/

/-- C10: all four grids are allocated with the input mask's dtype and every
stored value is cast to it.  Concretely, the boolean-dtype run produces
exactly the entrywise boolean cast of the int32 run's grids (mask_data is
identical, uncast), and the boolean cast collapses every stored index or
coordinate greater than 1 to 1 (True). -/
theorem sparsify_mask_dtype_collapse (mask : Block) (bm bn : Nat) :
    (runLoop mask DType.bool bm bn).block_mask =
        mapGrid DType.bool.cast (runLoop mask DType.int32 bm bn).block_mask ∧
      (runLoop mask DType.bool bm bn).prefetch_mask =
        mapGrid DType.bool.cast
          (runLoop mask DType.int32 bm bn).prefetch_mask ∧
      (runLoop mask DType.bool bm bn).prefetch_i =
        mapGrid DType.bool.cast (runLoop mask DType.int32 bm bn).prefetch_i ∧
      (runLoop mask DType.bool bm bn).prefetch_j =
        mapGrid DType.bool.cast (runLoop mask DType.int32 bm bn).prefetch_j ∧
      (runLoop mask DType.bool bm bn).mask_data =
        (runLoop mask DType.int32 bm bn).mask_data ∧
      ∀ v : Int, 1 < v → DType.bool.cast v = 1 := by
  obtain ⟨h1, h2, h3, h4, h5, -, -, -⟩ := runLoop_boolRel mask bm bn
  refine ⟨h1, h2, h3, h4, h5, ?_⟩
  intro v hv
  have : v ≠ 0 := by omega
  simp [DType.cast, this]

theorem sparsify_mask_dtype_collapse_witness :
    (runLoop exTall DType.bool 2 2).prefetch_i =
      mapGrid DType.bool.cast (runLoop exTall DType.int32 2 2).prefetch_i ∧
      DType.bool.cast 2 = 1 := by
  have h := sparsify_mask_dtype_collapse exTall 2 2
  exact ⟨h.2.2.1, h.2.2.2.2.2 2 (by decide)⟩

/-! ### C3 -/

/-- The result of `sparsify_mask` on the §8 scenario mask. -/
def exScenarioRes : SparsifyResult :=
  { block_mask := [[1, 0], [0, 1]], prefetch_mask := [[1, 0], [0, 0]],
    prefetch_i := [[0, 1], [1, 1]], prefetch_j := [[0, 1], [1, 1]],
    mask_data := [[[1, 1], [1, 1]], [[1, 0], [0, 0]]] }

/-- C3 counterexample: on the boolean mask `exThreeTypes` (the docstring
requires boolean masks) three distinct non-zero tile contents exist, so
tile (0,0) is assigned dedup index 2 — but the index is stored into a
boolean grid and collapses to 1.  The returned ContentIndex of the active
tile (0,0) therefore names `mask_data[1]`, which is not bit-for-bit equal
to that tile's own content (`mask_data[2]`). -/
theorem sparsify_mask_bool_dedup_cex :
    tileActive exThreeTypes 2 2 0 0 = true ∧
      sparsify_mask exThreeTypes DType.bool (2, 2) =
        .ok { block_mask := [[1, 1, 1]], prefetch_mask := [[1, 1, 0]],
              prefetch_i := [[0, 0, 0]], prefetch_j := [[0, 1, 1]],
              mask_data := [[[1, 1], [0, 0]], [[0, 1], [0, 0]],
                [[1, 0], [0, 0]]] } ∧
      ([[[1, 1], [0, 0]], [[0, 1], [0, 0]], [[1, 0], [0, 0]]] :
          List Block)[(1 : Nat)]? ≠
        some (extractBlock exThreeTypes 2 2 0 0) :=
  ⟨by decide, by decide, by decide⟩

/-- C3 (amended): for every well-formed mask and dtype, no two entries of
the returned mask_data are bit-for-bit equal (entries have pairwise
distinct `str` renderings, which implies distinct contents); and when the
block size `bm * bn` is within numpy's 1000-element print threshold (so
the `str` dedup key renders every element and is injective on contents)
and the mask dtype is int32 — so that the stored index is not collapsed
by the dtype cast, as it is for the docstring's boolean dtype once three
distinct contents exist — every active tile's ContentIndex names the
mask_data entry bit-for-bit equal to that tile's own content block.
Above the threshold the entry found by an active tile's ContentIndex is
only guaranteed to share the tile's summarised rendering. -/
theorem sparsify_mask_dedup_correct
    (mask : Block) (dt : DType) (bm bn : Nat) (res : SparsifyResult)
    (hwf : WellFormed mask bm bn)
    (hok : sparsify_mask mask dt (bm, bn) = .ok res) :
    res.mask_data.Nodup ∧
      (bm * bn ≤ 1000 → dt = DType.int32 →
        ∀ i j : Nat, i < rowsOf mask / bm → j < colsOf mask / bn →
          tileActive mask bm bn i j = true →
          ∃ t : Nat, gridEntry res.prefetch_mask i j = (t : Int) ∧
            res.mask_data[t]? = some (extractBlock mask bm bn i j)) := by
  obtain ⟨hbm', hpm', hpi', hpj', hdata'⟩ := sparsify_ok_fields hok
  constructor
  · rw [hdata']
    exact foldl_nodup _ List.nodup_nil
  · rintro hth rfl i j hi hj hact
    obtain ⟨-, -, -, t, b', hpm, hdat, hkey⟩ :=
      @runLoop_cell_active mask DType.int32 bm bn hwf i j hi hj hact
    have hb : b' = extractBlock mask bm bn i j :=
      data_entry_eq_of_thresh hth hdat hkey
    refine ⟨t, ?_, ?_⟩
    · rw [hpm']
      exact hpm
    · rw [hdata', ← hb]
      exact hdat

theorem sparsify_mask_dedup_correct_witness :
    sparsify_mask exScenario DType.int32 (2, 2) = .ok exScenarioRes ∧
      (exScenarioRes.mask_data.Nodup ∧
        (2 * 2 ≤ 1000 → DType.int32 = DType.int32 →
          ∀ i j : Nat, i < rowsOf exScenario / 2 → j < colsOf exScenario / 2 →
            tileActive exScenario 2 2 i j = true →
            ∃ t : Nat, gridEntry exScenarioRes.prefetch_mask i j = (t : Int) ∧
              exScenarioRes.mask_data[t]? =
                some (extractBlock exScenario 2 2 i j))) :=
  ⟨by decide, sparsify_mask_dedup_correct exScenario DType.int32 2 2
    exScenarioRes (by decide) (by decide)⟩

/-! ### C4 -/

/-- The active-tile clause of the coverage property (C4): ActiveFlag true,
self-referential Next*, and a ContentIndex naming the tile's own dedup
entry. -/
def ActiveClause (mask : Block) (bm bn : Nat) (res : SparsifyResult)
    (i j : Nat) : Prop :=
  tileActive mask bm bn i j = true ∧
    gridEntry res.prefetch_i i j = (i : Int) ∧
    gridEntry res.prefetch_j i j = (j : Int) ∧
    ∃ t : Nat, gridEntry res.prefetch_mask i j = (t : Int) ∧
      res.mask_data[t]? = some (extractBlock mask bm bn i j)

/-- The inactive-tile clause of the coverage property, amended with the
sentinel alternative: Next* points to some active tile, or holds the
initial bottom-right sentinel (numTileRows-1, numTileCols-1). -/
def InactiveClause (mask : Block) (bm bn : Nat) (res : SparsifyResult)
    (i j : Nat) : Prop :=
  tileActive mask bm bn i j = false ∧
    ((∃ a b : Nat, a < rowsOf mask / bm ∧ b < colsOf mask / bn ∧
        tileActive mask bm bn a b = true ∧
        gridEntry res.prefetch_i i j = (a : Int) ∧
        gridEntry res.prefetch_j i j = (b : Int)) ∨
      (gridEntry res.prefetch_i i j = ((rowsOf mask / bm : Nat) : Int) - 1 ∧
        gridEntry res.prefetch_j i j = ((colsOf mask / bn : Nat) : Int) - 1))

/-- C4 counterexample: `exOneActive` (int32, block (2,2)) has an active
tile, namely (0,0).  The inactive tile (0,1) stores NextActive* = (0,1) —
the initial bottom-right sentinel — but tile (0,1) is not an active tile
(it is itself, all-zero).  So the claimed dichotomy fails: tile (0,1) is
inactive and its Next* does not point to any active tile. -/
theorem sparsify_mask_coverage_cex :
    tileActive exOneActive 2 2 0 0 = true ∧
      tileActive exOneActive 2 2 0 1 = false ∧
      sparsify_mask exOneActive DType.int32 (2, 2) =
        .ok { block_mask := [[1, 0]], prefetch_mask := [[0, 0]],
              prefetch_i := [[0, 0]], prefetch_j := [[0, 1]],
              mask_data := [[[1, 0], [0, 0]]] } ∧
      gridEntry ([[0, 0]] : Grid) 0 1 = 0 ∧
      gridEntry ([[0, 1]] : Grid) 0 1 = 1 :=
  ⟨by decide, by decide, by decide, by decide, by decide⟩

/-- C4 (amended, for int32 masks, where stored coordinates are not
collapsed by the dtype cast, and for block sizes `bm * bn` within numpy's
1000-element print threshold, so the `str` dedup key is injective and an
active tile's ContentIndex names an entry equal to its own content):
given at least one active tile, every in-range tile satisfies exactly one
of the active clause (ActiveFlag true, Next* self-referential,
ContentIndex naming its own entry) and the inactive clause amended with
the sentinel alternative: ActiveFlag false with Next* pointing to some
active tile or holding the bottom-right sentinel — the sentinel arises
for tiles visited before any active tile in the reverse scan, and that
corner tile need not be active. -/
theorem sparsify_mask_coverage_int
    (mask : Block) (bm bn : Nat) (res : SparsifyResult)
    (hwf : WellFormed mask bm bn)
    (hth : bm * bn ≤ 1000)
    (_hex : ∃ a b : Nat, a < rowsOf mask / bm ∧ b < colsOf mask / bn ∧
      tileActive mask bm bn a b = true)
    (hok : sparsify_mask mask DType.int32 (bm, bn) = .ok res) :
    ∀ i j : Nat, i < rowsOf mask / bm → j < colsOf mask / bn →
      (ActiveClause mask bm bn res i j ∧ ¬ InactiveClause mask bm bn res i j) ∨
        (InactiveClause mask bm bn res i j ∧
          ¬ ActiveClause mask bm bn res i j) := by
  obtain ⟨hbm', hpm', hpi', hpj', hdata'⟩ := sparsify_ok_fields hok
  intro i j hi hj
  cases hact : tileActive mask bm bn i j with
  | true =>
    left
    constructor
    · obtain ⟨-, hpi, hpj, t, b', hpm, hdat, hkey⟩ :=
        @runLoop_cell_active mask DType.int32 bm bn hwf i j hi hj hact
      have hb : b' = extractBlock mask bm bn i j :=
        data_entry_eq_of_thresh hth hdat hkey
      refine ⟨hact, ?_, ?_, t, ?_, ?_⟩
      · rw [hpi']
        exact hpi
      · rw [hpj']
        exact hpj
      · rw [hpm']
        exact hpm
      · rw [hdata', ← hb]
        exact hdat
    · intro hc
      obtain ⟨h0, -⟩ := hc
      rw [hact] at h0
      exact Bool.noConfusion h0
  | false =>
    right
    constructor
    · obtain ⟨-, ni, nj, hpi, hpj, hdis⟩ :=
        @runLoop_cell_inactive mask DType.int32 bm bn hwf i j hi hj hact
      refine ⟨hact, ?_⟩
      rcases hdis with ⟨hni, hnj⟩ | ⟨a, b, ha, hb, hab, hni, hnj⟩
      · right
        subst hni
        subst hnj
        constructor
        · rw [hpi']
          exact hpi
        · rw [hpj']
          exact hpj
      · left
        subst hni
        subst hnj
        refine ⟨a, b, ha, hb, hab, ?_, ?_⟩
        · rw [hpi']
          exact hpi
        · rw [hpj']
          exact hpj
    · intro hc
      obtain ⟨h0, -⟩ := hc
      rw [hact] at h0
      exact Bool.noConfusion h0

/-- The result of `sparsify_mask` on `exOneActive`. -/
def exOneActiveRes : SparsifyResult :=
  { block_mask := [[1, 0]], prefetch_mask := [[0, 0]],
    prefetch_i := [[0, 0]], prefetch_j := [[0, 1]],
    mask_data := [[[1, 0], [0, 0]]] }

theorem sparsify_mask_coverage_int_witness :
    2 * 2 ≤ 1000 ∧
      sparsify_mask exOneActive DType.int32 (2, 2) = .ok exOneActiveRes ∧
      ∀ i j : Nat, i < rowsOf exOneActive / 2 → j < colsOf exOneActive / 2 →
        (ActiveClause exOneActive 2 2 exOneActiveRes i j ∧
            ¬ InactiveClause exOneActive 2 2 exOneActiveRes i j) ∨
          (InactiveClause exOneActive 2 2 exOneActiveRes i j ∧
            ¬ ActiveClause exOneActive 2 2 exOneActiveRes i j) :=
  ⟨by decide, by decide, sparsify_mask_coverage_int exOneActive 2 2
    exOneActiveRes (by decide) (by decide)
    ⟨0, 0, by decide, by decide, by decide⟩ (by decide)⟩

/-! ### C5 -/

/-- C5: for every well-formed mask (either dtype) with at least one active
tile, every inactive in-range tile's stored NextActiveRow/NextActiveCol
are a real tile coordinate within the tile-grid bounds:
`0 ≤ NextActiveRow < numTileRows` and `0 ≤ NextActiveCol < numTileCols`.
(The boolean cast keeps the bound: a stored 1 only arises from a value
≥ 1, which forces the corresponding dimension to be ≥ 2.) -/
theorem sparsify_mask_next_inbounds
    (mask : Block) (dt : DType) (bm bn : Nat) (res : SparsifyResult)
    (hwf : WellFormed mask bm bn)
    (hex : ∃ a b : Nat, a < rowsOf mask / bm ∧ b < colsOf mask / bn ∧
      tileActive mask bm bn a b = true)
    (hok : sparsify_mask mask dt (bm, bn) = .ok res) :
    ∀ i j : Nat, i < rowsOf mask / bm → j < colsOf mask / bn →
      tileActive mask bm bn i j = false →
      0 ≤ gridEntry res.prefetch_i i j ∧
        gridEntry res.prefetch_i i j < ((rowsOf mask / bm : Nat) : Int) ∧
        0 ≤ gridEntry res.prefetch_j i j ∧
        gridEntry res.prefetch_j i j < ((colsOf mask / bn : Nat) : Int) := by
  obtain ⟨a0, b0, ha0, hb0, -⟩ := hex
  have hR : 0 < rowsOf mask / bm := by omega
  have hC : 0 < colsOf mask / bn := by omega
  obtain ⟨-, -, hpi', hpj', -⟩ := sparsify_ok_fields hok
  intro i j hi hj hact
  obtain ⟨-, ni, nj, hpi, hpj, hdis⟩ :=
    @runLoop_cell_inactive mask dt bm bn hwf i j hi hj hact
  have hbi : 0 ≤ ni ∧ ni ≤ ((rowsOf mask / bm : Nat) : Int) - 1 := by
    rcases hdis with ⟨hni, -⟩ | ⟨a, b, ha, hb, -, hni, -⟩ <;> subst hni <;>
      constructor <;> omega
  have hbj : 0 ≤ nj ∧ nj ≤ ((colsOf mask / bn : Nat) : Int) - 1 := by
    rcases hdis with ⟨-, hnj⟩ | ⟨a, b, ha, hb, -, -, hnj⟩ <;> subst hnj <;>
      constructor <;> omega
  obtain ⟨hci1, hci2⟩ := @cast_nonneg_bound dt ni _ hbi.1 hbi.2
  obtain ⟨hcj1, hcj2⟩ := @cast_nonneg_bound dt nj _ hbj.1 hbj.2
  rw [hpi', hpj', hpi, hpj]
  refine ⟨hci1, by omega, hcj1, by omega⟩

theorem sparsify_mask_next_inbounds_witness :
    sparsify_mask exScenario DType.int32 (2, 2) = .ok exScenarioRes ∧
      tileActive exScenario 2 2 0 1 = false ∧
      0 ≤ gridEntry exScenarioRes.prefetch_i 0 1 ∧
      gridEntry exScenarioRes.prefetch_i 0 1 <
        ((rowsOf exScenario / 2 : Nat) : Int) := by
  have h := sparsify_mask_next_inbounds exScenario DType.int32 2 2
    exScenarioRes (by decide) ⟨0, 0, by decide, by decide, by decide⟩
    (by decide) 0 1 (by decide) (by decide) (by decide)
  exact ⟨by decide, by decide, h.1, h.2.1⟩

/-! ### C9 -/

/-- C9 counterexample: `exTall` is a boolean mask with 3 tile rows whose
only active tile is (0,0).  Tile (1,0) follows the last active tile in
forward order, so the code stores the sentinel row numTileRows - 1 = 2 —
but into a boolean grid, where it collapses to 1.  The stored
NextActiveRow of tile (1,0) therefore differs from the claimed sentinel
value. -/
theorem sparsify_mask_late_sentinel_cex :
    sparsify_mask exTall DType.bool (2, 2) =
      .ok { block_mask := [[1], [0], [0]], prefetch_mask := [[0], [0], [0]],
            prefetch_i := [[0], [1], [1]], prefetch_j := [[0], [0], [0]],
            mask_data := [[[1, 0], [0, 0]]] } ∧
      (∀ a < 3, ∀ b < 1,
        (scanLt (1, 0) (a, b) ∨ (a, b) = (1, 0)) →
          tileActive exTall 2 2 a b = false) ∧
      gridEntry ([[0], [1], [1]] : Grid) 1 0 ≠
        ((rowsOf exTall / 2 : Nat) : Int) - 1 :=
  ⟨by decide, by decide, by decide⟩

/-- C9 (amended, for int32 masks, where the stored sentinel is not
collapsed by the dtype cast): every in-range tile that follows the last
active tile in forward ascending order (no in-range tile at or after it in
scan order is active) stores ContentIndex 0 and the sentinel coordinates
(numTileRows-1, numTileCols-1), regardless of whether the bottom-right
tile is active; and when an active tile exists, index 0 is live:
mask_data[0] is the content of the forward-last active tile. -/
theorem sparsify_mask_late_tiles
    (mask : Block) (bm bn : Nat) (res : SparsifyResult)
    (hwf : WellFormed mask bm bn)
    (hok : sparsify_mask mask DType.int32 (bm, bn) = .ok res) :
    (∀ i j : Nat, i < rowsOf mask / bm → j < colsOf mask / bn →
      (∀ a < rowsOf mask / bm, ∀ b < colsOf mask / bn,
        (scanLt (i, j) (a, b) ∨ (a, b) = (i, j)) →
          tileActive mask bm bn a b = false) →
      gridEntry res.prefetch_mask i j = 0 ∧
        gridEntry res.prefetch_i i j = ((rowsOf mask / bm : Nat) : Int) - 1 ∧
        gridEntry res.prefetch_j i j = ((colsOf mask / bn : Nat) : Int) - 1) ∧
      (∀ a b : Nat, a < rowsOf mask / bm → b < colsOf mask / bn →
        tileActive mask bm bn a b = true →
        (∀ a' < rowsOf mask / bm, ∀ b' < colsOf mask / bn,
          tileActive mask bm bn a' b' = true → ¬ scanLt (a, b) (a', b')) →
        res.mask_data[0]? = some (extractBlock mask bm bn a b)) := by
  obtain ⟨hbm', hpm', hpi', hpj', hdata'⟩ := sparsify_ok_fields hok
  constructor
  · intro i j hi hj hlate
    obtain ⟨-, hpm, hpi, hpj⟩ :=
      @runLoop_cell_late mask DType.int32 bm bn hwf i j hi hj hlate
    refine ⟨?_, ?_, ?_⟩
    · rw [hpm']
      exact hpm
    · rw [hpi']
      exact hpi
    · rw [hpj']
      exact hpj
  · intro a b ha hb hact hmax
    rw [hdata']
    exact @runLoop_first_entry mask DType.int32 bm bn hwf a b ha hb hact hmax

theorem sparsify_mask_late_tiles_witness :
    sparsify_mask exOneActive DType.int32 (2, 2) = .ok exOneActiveRes ∧
      gridEntry exOneActiveRes.prefetch_mask 0 1 = 0 ∧
      gridEntry exOneActiveRes.prefetch_i 0 1 =
        ((rowsOf exOneActive / 2 : Nat) : Int) - 1 ∧
      gridEntry exOneActiveRes.prefetch_j 0 1 =
        ((colsOf exOneActive / 2 : Nat) : Int) - 1 ∧
      exOneActiveRes.mask_data[(0 : Nat)]? =
        some (extractBlock exOneActive 2 2 0 0) := by
  have h := sparsify_mask_late_tiles exOneActive 2 2 exOneActiveRes
    (by decide) (by decide)
  have h1 := h.1 0 1 (by decide) (by decide) (by decide)
  have h2 := h.2 0 0 (by decide) (by decide) (by decide) (by decide)
  exact ⟨by decide, h1.1, h1.2.1, h1.2.2, h2⟩

end BlockSparse
